import Mathlib

/-!
Verification development for the sensor timestamp synchronization core
(`lidar-test2.py`, class `SensorTimestampSynchronizer`).

Timestamps are modelled as rationals (the Python code works on floats used as
exact decimal fractions in all reference data).  Python dictionaries are
modelled as association lists in insertion order; `dict` lookups become
`List.lookup`.  Each synchronization algorithm of the source is translated
separately, keeping the per-sensor iteration order, the early `break` on a
failed admission check, and the mutable cursor state of the linear scan
(threaded explicitly).
-/

namespace Sync

/-- Python `abs` on rationals. -/
def absQ (x : ℚ) : ℚ := if x < 0 then -x else x

/-- Python `statistics.mean` (callers guard against the empty list). -/
def meanQ (l : List ℚ) : ℚ := l.sum / l.length

/-- Python `max` over a list (callers guard against the empty list). -/
def maxQ : List ℚ → ℚ
  | [] => 0
  | x :: xs => xs.foldl max x

/-- Python `sorted` on a list of rationals: the ascending sorted permutation
(values are plain rationals, so stability does not affect the result). -/
def sortedQ (l : List ℚ) : List ℚ := List.insertionSort (· ≤ ·) l

/-- The synchronizer state after `__init__`: `self.messages` (each series
already sorted by the constructor), `self.reference_sensor`,
`self.max_time_diff`. -/
structure Synchronizer where
  messages : List (String × List ℚ)
  reference_sensor : String
  max_time_diff : ℚ

/-- `self.messages[name]` (empty list stands for the impossible missing key). -/
def Synchronizer.series (s : Synchronizer) (name : String) : List ℚ :=
  (s.messages.lookup name).getD []

/-- `self.other_sensors = [s for s in self.messages.keys() if s != reference_sensor]`. -/
def Synchronizer.other_sensors (s : Synchronizer) : List String :=
  (s.messages.map Prod.fst).filter (fun n => n ≠ s.reference_sensor)

/-- `self.messages[self.reference_sensor]`. -/
def Synchronizer.ref_times (s : Synchronizer) : List ℚ :=
  s.series s.reference_sensor

/-- The generator testing `timestamps[i] > timestamps[i+1]` over adjacent pairs
in `_validate_input`. -/
def unsorted_check (ts : List ℚ) : Bool :=
  (ts.zip ts.tail).any (fun p => decide (p.2 < p.1))

/-- The per-sensor loop of `_validate_input`: first sensor with an empty or
unsorted series raises `ValueError`. -/
def validate_series : List (String × List ℚ) → Except String Unit
  | [] => Except.ok ()
  | (sensor, ts) :: rest =>
    if ts.isEmpty then Except.error ("Sensor " ++ sensor ++ " has no timestamps")
    else if unsorted_check ts then
      Except.error ("Sensor " ++ sensor ++ " timestamps are not sorted")
    else validate_series rest

/-- `_validate_input`: no data, missing reference sensor, then the per-sensor
checks. -/
def validate_input (s : Synchronizer) : Except String Unit :=
  if s.messages.isEmpty then Except.error "No sensor data provided"
  else if (s.messages.lookup s.reference_sensor).isNone then
    Except.error ("Reference sensor " ++ s.reference_sensor ++ " not found in data")
  else validate_series s.messages

/-- `__init__`: sorts every series (`{k: sorted(v) for k, v in messages.items()}`)
and then runs `_validate_input`, which may raise. -/
def mkSynchronizer (messages : List (String × List ℚ)) (ref : String) (mtd : ℚ) :
    Except String Synchronizer :=
  let s : Synchronizer := ⟨messages.map (fun p => (p.1, sortedQ p.2)), ref, mtd⟩
  match validate_input s with
  | Except.ok _ => Except.ok s
  | Except.error e => Except.error e

/-- `_find_closest_brute_force`: start from `timestamps[0]` and keep the first
timestamp achieving a strictly smaller absolute difference.  Returns
`(closest, min_diff)`. -/
def find_closest_brute_force (ref_time : ℚ) (timestamps : List ℚ) : ℚ × ℚ :=
  timestamps.tail.foldl
    (fun acc ts => if absQ (ref_time - ts) < acc.2 then (ts, absQ (ref_time - ts)) else acc)
    (timestamps.headD 0, absQ (ref_time - timestamps.headD 0))

/-- `bisect.bisect_left` on a sorted list: the number of elements `< x`. -/
def bisect_left (timestamps : List ℚ) (x : ℚ) : Nat :=
  timestamps.countP (fun t => decide (t < x))

/-- `bisect.bisect_right` on a sorted list: the number of elements `≤ x`. -/
def bisect_right (timestamps : List ℚ) (x : ℚ) : Nat :=
  timestamps.countP (fun t => decide (t ≤ x))

/-- `_find_closest_binary`: locate the insertion point, clamp at the two ends,
otherwise compare predecessor and successor (`timestamps[idx-1]` only on a
strictly smaller difference). -/
def find_closest_binary (ref_time : ℚ) (timestamps : List ℚ) : ℚ :=
  let idx := bisect_left timestamps ref_time
  if idx = 0 then timestamps.headD 0
  else if idx = timestamps.length then timestamps.getLastD 0
  else
    let prev_diff := absQ (ref_time - timestamps.getD (idx - 1) 0)
    let next_diff := absQ (ref_time - timestamps.getD idx 0)
    if prev_diff < next_diff then timestamps.getD (idx - 1) 0 else timestamps.getD idx 0

/-- The `while idx < len(sensor_times) and sensor_times[idx] < ref_time: idx += 1`
loop of `sync_linear_scan`. -/
def advance_idx (timestamps : List ℚ) (idx : Nat) (ref_time : ℚ) : Nat :=
  idx + ((timestamps.drop idx).takeWhile (fun t => decide (t < ref_time))).length

/-- The boundary comparison of `sync_linear_scan` after the cursor advance:
clamp at index `0` and `len`, otherwise pick the strictly smaller difference
(the successor `sensor_times[idx]` on a tie).  Returns `(closest, time_diff)`. -/
def boundary_closest (timestamps : List ℚ) (idx : Nat) (ref_time : ℚ) : ℚ × ℚ :=
  if idx = 0 then (timestamps.headD 0, absQ (ref_time - timestamps.headD 0))
  else if idx = timestamps.length then
    (timestamps.getLastD 0, absQ (ref_time - timestamps.getLastD 0))
  else
    let prev_diff := absQ (ref_time - timestamps.getD (idx - 1) 0)
    let next_diff := absQ (ref_time - timestamps.getD idx 0)
    if prev_diff < next_diff then (timestamps.getD (idx - 1) 0, prev_diff)
    else (timestamps.getD idx 0, next_diff)

/-- `_should_skip_first_timestamp`: true when some other sensor has no
timestamp within `max_time_diff` of the first reference timestamp. -/
def Synchronizer.should_skip_first_timestamp (s : Synchronizer) (first_time : ℚ) : Bool :=
  s.other_sensors.any (fun sensor =>
    ! (s.series sensor).any (fun ts => decide (absQ (first_time - ts) ≤ s.max_time_diff)))

/-- `start_idx = 1 if skip_first else 0`, with `skip_first` computed on
`ref_times[0]`; shared verbatim by all four algorithms. -/
def Synchronizer.start_idx (s : Synchronizer) : Nat :=
  if s.should_skip_first_timestamp (s.ref_times.headD 0) then 1 else 0

/-- One output row (`synced_entry`): a Python dict from sensor name to
timestamp, in insertion order (reference sensor first). -/
abbrev Row := List (String × ℚ)

/-- The inner sensor loop of `sync_brute_force` for one reference timestamp:
collects `(sensor, closest)` entries, `none` on the first sensor whose
minimal difference exceeds `max_time_diff` (the `break`). -/
def Synchronizer.brute_entries (s : Synchronizer) (ref_time : ℚ) :
    List String → Option (List (String × ℚ))
  | [] => some []
  | sensor :: rest =>
    let r := find_closest_brute_force ref_time (s.series sensor)
    if r.2 ≤ s.max_time_diff then
      (s.brute_entries ref_time rest).map (fun es => (sensor, r.1) :: es)
    else none

/-- The full `synced_entry` of `sync_brute_force` for one reference timestamp,
`none` when the row is rejected. -/
def Synchronizer.brute_row (s : Synchronizer) (ref_time : ℚ) : Option Row :=
  (s.brute_entries ref_time s.other_sensors).map
    (fun es => (s.reference_sensor, ref_time) :: es)

/-- `sync_brute_force`: the loop `for i in range(start_idx, len(ref_times))`
appending each accepted row. -/
def Synchronizer.sync_brute_force (s : Synchronizer) : List Row :=
  (s.ref_times.drop s.start_idx).filterMap s.brute_row

/-- The inner sensor loop of `sync_binary_search` for one reference timestamp. -/
def Synchronizer.binary_entries (s : Synchronizer) (ref_time : ℚ) :
    List String → Option (List (String × ℚ))
  | [] => some []
  | sensor :: rest =>
    let closest := find_closest_binary ref_time (s.series sensor)
    if absQ (ref_time - closest) ≤ s.max_time_diff then
      (s.binary_entries ref_time rest).map (fun es => (sensor, closest) :: es)
    else none

/-- The full `synced_entry` of `sync_binary_search` for one reference timestamp. -/
def Synchronizer.binary_row (s : Synchronizer) (ref_time : ℚ) : Option Row :=
  (s.binary_entries ref_time s.other_sensors).map
    (fun es => (s.reference_sensor, ref_time) :: es)

/-- `sync_binary_search`. -/
def Synchronizer.sync_binary_search (s : Synchronizer) : List Row :=
  (s.ref_times.drop s.start_idx).filterMap s.binary_row

/-- The inner sensor loop of `sync_linear_scan` for one reference timestamp:
takes the cursor dictionary `indices` (in `other_sensors` order), advances the
cursor of each processed sensor, stores it back only on a successful admission
check (`indices[sensor] = idx`), and stops at the first failing sensor
(the `break`), leaving the remaining cursors untouched.  Returns the collected
entries (`none` on rejection) and the updated cursor dictionary. -/
def Synchronizer.linear_step (s : Synchronizer) (ref_time : ℚ) :
    List (String × Nat) → Option (List (String × ℚ)) × List (String × Nat)
  | [] => (some [], [])
  | (sensor, idx) :: rest =>
    let ts := s.series sensor
    let idx2 := advance_idx ts idx ref_time
    let r := boundary_closest ts idx2 ref_time
    if r.2 ≤ s.max_time_diff then
      let next := s.linear_step ref_time rest
      (next.1.map (fun es => (sensor, r.1) :: es), (sensor, idx2) :: next.2)
    else (none, (sensor, idx) :: rest)

/-- The reference-timestamp loop of `sync_linear_scan`, threading the cursor
dictionary. -/
def Synchronizer.linear_go (s : Synchronizer) :
    List ℚ → List (String × Nat) → List Row
  | [], _ => []
  | ref_time :: rest, st =>
    match s.linear_step ref_time st with
    | (some es, st2) => ((s.reference_sensor, ref_time) :: es) :: s.linear_go rest st2
    | (none, st2) => s.linear_go rest st2

/-- `indices = {sensor: 0 for sensor in self.other_sensors}`. -/
def Synchronizer.init_indices (s : Synchronizer) : List (String × Nat) :=
  s.other_sensors.map (fun sensor => (sensor, 0))

/-- `sync_linear_scan`. -/
def Synchronizer.sync_linear_scan (s : Synchronizer) : List Row :=
  s.linear_go (s.ref_times.drop s.start_idx) s.init_indices

/-- `_calculate_adaptive_window_sizes`: for each other sensor, twice the mean
inter-sample interval or twice `max_time_diff`, whichever is larger; sensors
with fewer than two timestamps get `max_time_diff * 2`. -/
def Synchronizer.calculate_adaptive_window_sizes (s : Synchronizer) : List (String × ℚ) :=
  s.other_sensors.map (fun sensor =>
    let ts := s.series sensor
    if 1 < ts.length then
      let diffs := (ts.zip ts.tail).map (fun p => p.2 - p.1)
      let avg_interval := if diffs.isEmpty then s.max_time_diff else meanQ diffs
      (sensor, max (s.max_time_diff * 2) (avg_interval * 2))
    else (sensor, s.max_time_diff * 2))

/-- `window_sizes.get(sensor, default)`. -/
def window_of (ws : List (String × ℚ)) (sensor : String) (default : ℚ) : ℚ :=
  (ws.lookup sensor).getD default

/-- `_find_closest_in_window`: two bisections give the slice
`timestamps[start_idx:end_idx]`; `None` when the slice is empty, otherwise the
first slice element minimizing `abs(x - ref_time)` (Python `min` with a key). -/
def find_closest_in_window (ref_time : ℚ) (timestamps : List ℚ) (window : ℚ) :
    Option ℚ :=
  let start_i := bisect_left timestamps (ref_time - window)
  let end_i := bisect_right timestamps (ref_time + window)
  if end_i ≤ start_i then none
  else
    match (timestamps.drop start_i).take (end_i - start_i) with
    | [] => none
    | w :: ws =>
      some (ws.foldl
        (fun best x => if absQ (x - ref_time) < absQ (best - ref_time) then x else best) w)

/-- The inner sensor loop of `sync_hybrid` for one reference timestamp:
an empty window rejects the row exactly like a failed admission check. -/
def Synchronizer.hybrid_entries (s : Synchronizer) (ws : List (String × ℚ)) (ref_time : ℚ) :
    List String → Option (List (String × ℚ))
  | [] => some []
  | sensor :: rest =>
    let window := window_of ws sensor (s.max_time_diff * 2)
    match find_closest_in_window ref_time (s.series sensor) window with
    | some closest =>
      if absQ (ref_time - closest) ≤ s.max_time_diff then
        (s.hybrid_entries ws ref_time rest).map (fun es => (sensor, closest) :: es)
      else none
    | none => none

/-- The full `synced_entry` of `sync_hybrid` for one reference timestamp. -/
def Synchronizer.hybrid_row (s : Synchronizer) (ws : List (String × ℚ)) (ref_time : ℚ) :
    Option Row :=
  (s.hybrid_entries ws ref_time s.other_sensors).map
    (fun es => (s.reference_sensor, ref_time) :: es)

/-- `sync_hybrid`. -/
def Synchronizer.sync_hybrid (s : Synchronizer) : List Row :=
  (s.ref_times.drop s.start_idx).filterMap
    (s.hybrid_row s.calculate_adaptive_window_sizes)

/-- `sync_brute_force` with the leading-outlier skip disabled (the pass starts
at index 0). -/
def Synchronizer.sync_brute_force_noskip (s : Synchronizer) : List Row :=
  s.ref_times.filterMap s.brute_row

/-- `sync_linear_scan` with the leading-outlier skip disabled. -/
def Synchronizer.sync_linear_scan_noskip (s : Synchronizer) : List Row :=
  s.linear_go s.ref_times s.init_indices

/-- `sync_binary_search` with the leading-outlier skip disabled. -/
def Synchronizer.sync_binary_search_noskip (s : Synchronizer) : List Row :=
  s.ref_times.filterMap s.binary_row

/-- `sync_hybrid` with the leading-outlier skip disabled. -/
def Synchronizer.sync_hybrid_noskip (s : Synchronizer) : List Row :=
  s.ref_times.filterMap (s.hybrid_row s.calculate_adaptive_window_sizes)

/-- The error report of `_calculate_error_metrics`. -/
structure ErrorMetrics where
  avg_time_diff : ℝ
  max_time_diff : ℝ
  std_dev : ℝ
  rmse : ℝ

/-- The pooled sample of `_calculate_error_metrics`: every
`abs(ref_time - timestamp)` over all rows and all non-reference entries. -/
def Synchronizer.pooled_diffs (s : Synchronizer) (synced : List Row) : List ℚ :=
  synced.flatMap (fun entry =>
    (entry.filter (fun p => p.1 ≠ s.reference_sensor)).map
      (fun p => absQ ((entry.lookup s.reference_sensor).getD 0 - p.2)))

/-- `_calculate_error_metrics`: all-zero on an empty input; otherwise mean and
max of the pooled sample (0 on an empty sample), and for at least two samples
the sample standard deviation (`statistics.stdev`) and
`sqrt(mean(diff**2))`, else `std_dev = 0` and `rmse = avg_diff`. -/
noncomputable def Synchronizer.calculate_error_metrics (s : Synchronizer)
    (synced : List Row) : ErrorMetrics :=
  if synced.isEmpty then ⟨0, 0, 0, 0⟩
  else
    let time_diffs := s.pooled_diffs synced
    let avg_diff : ℚ := if time_diffs.isEmpty then 0 else meanQ time_diffs
    let max_diff : ℚ := if time_diffs.isEmpty then 0 else maxQ time_diffs
    if 1 < time_diffs.length then
      ⟨avg_diff, max_diff,
        Real.sqrt ((time_diffs.map (fun d => ((d : ℝ) - (meanQ time_diffs : ℝ)) ^ 2)).sum /
          ((time_diffs.length : ℝ) - 1)),
        Real.sqrt ((meanQ (time_diffs.map (fun d => d ^ 2)) : ℝ))⟩
    else ⟨avg_diff, max_diff, 0, avg_diff⟩

/-- The error report exactly as the specification words it: mean and max of the
pooled sample, sample standard deviation for at least two values and 0
otherwise, and RMSE always equal to `sqrt(mean(diff^2))`; all-zero on an empty
sample. -/
noncomputable def spec_error_metrics (s : Synchronizer) (synced : List Row) :
    ErrorMetrics :=
  let sample := s.pooled_diffs synced
  ⟨if sample.isEmpty then 0 else (meanQ sample : ℝ),
    if sample.isEmpty then 0 else (maxQ sample : ℝ),
    if 2 ≤ sample.length then
      Real.sqrt ((sample.map (fun d => ((d : ℝ) - (meanQ sample : ℝ)) ^ 2)).sum /
        ((sample.length : ℝ) - 1))
    else 0,
    if sample.isEmpty then 0 else Real.sqrt ((meanQ (sample.map (fun d => d ^ 2)) : ℝ))⟩

/-- The weighted score of `benchmark_algorithms`:
`avg_time_diff * 0.6 + execution_time * 0.4`. -/
def benchmark_score (avg_err exec_time : ℚ) : ℚ :=
  avg_err * (6 / 10) + exec_time * (4 / 10)

/-- The `best_name = min(results.keys(), key=...)` selection of
`benchmark_algorithms` over `(name, avg_time_diff, execution_time)` entries:
Python `min` keeps the first entry achieving the minimal key. -/
def benchmark_best : List (String × ℚ × ℚ) → Option String
  | [] => none
  | r :: rest =>
    some ((rest.foldl (fun best x =>
      if benchmark_score x.2.1 x.2.2 < benchmark_score best.2.1 best.2.2 then x else best)
      r).1)

/-- The reference-sensor column of an aligned sequence (`row[reference_sensor]`
for each row). -/
def Synchronizer.ref_column (s : Synchronizer) (rows : List Row) : List ℚ :=
  rows.filterMap (fun row => row.lookup s.reference_sensor)

/-- A well-formed output row: it holds the reference sensor first and then
exactly the other sensors in order, and every non-reference entry is within
`max_time_diff` of the reference entry. -/
def Synchronizer.row_ok (s : Synchronizer) (row : Row) : Prop :=
  row.map Prod.fst = s.reference_sensor :: s.other_sensors ∧
  ∃ ref_time, row.lookup s.reference_sensor = some ref_time ∧
    (∀ sensor ∈ s.other_sensors, ∃ t, row.lookup sensor = some t ∧
      absQ (ref_time - t) ≤ s.max_time_diff) ∧
    (∀ p ∈ row, p.1 ≠ s.reference_sensor → absQ (ref_time - p.2) ≤ s.max_time_diff)

/-- `c` is a closest element of `ts` to `ref_time`. -/
def is_closest (ref_time : ℚ) (ts : List ℚ) (c : ℚ) : Prop :=
  c ∈ ts ∧ ∀ x ∈ ts, absQ (ref_time - c) ≤ absQ (ref_time - x)

/-- The per-sensor value stored by `_calculate_adaptive_window_sizes` (the
right-hand side of the two `window_sizes[sensor] = ...` assignments). -/
def Synchronizer.adaptive_window (s : Synchronizer) (sensor : String) : ℚ :=
  if 1 < (s.series sensor).length then
    max (s.max_time_diff * 2)
      ((if (((s.series sensor).zip (s.series sensor).tail).map (fun p => p.2 - p.1)).isEmpty
          then s.max_time_diff
          else meanQ (((s.series sensor).zip (s.series sensor).tail).map (fun p => p.2 - p.1))) * 2)
  else s.max_time_diff * 2

/-- No two timestamps of any other sensor are equidistant from any reference
timestamp (the well-separated-data hypothesis of the spec). -/
def Synchronizer.no_ties (s : Synchronizer) : Prop :=
  ∀ r ∈ s.ref_times, ∀ sensor ∈ s.other_sensors,
    ∀ t1 ∈ s.series sensor, ∀ t2 ∈ s.series sensor,
      absQ (r - t1) = absQ (r - t2) → t1 = t2

/-- A small valid three-sensor input (already sorted, tie-free, no leading
outlier) used to exercise the algorithms on concrete data. -/
def sEx : Synchronizer :=
  ⟨[("lidar_0", [0, 2, 10]), ("lidar_1", [0, 2, 10]), ("lidar_2", [1, 5, 11])], "lidar_0", 2⟩

/-- A valid input whose first reference timestamp is a leading outlier: the
other sensor has nothing within `max_time_diff = 1` of time `0`. -/
def sEx2 : Synchronizer :=
  ⟨[("lidar_0", [0, 10, 11]), ("lidar_1", [10, 11])], "lidar_0", 1⟩

/-- A valid input whose reference series contains a duplicated timestamp. -/
def sDup : Synchronizer := ⟨[("r", [1, 1]), ("a", [1])], "r", 1⟩

end Sync

namespace Sync

theorem absQ_nonneg (x : ℚ) : 0 ≤ absQ x := by
  unfold absQ; split <;> linarith

theorem absQ_of_nonneg {x : ℚ} (h : 0 ≤ x) : absQ x = x := by
  unfold absQ; rw [if_neg (not_lt.mpr h)]

theorem absQ_of_nonpos {x : ℚ} (h : x ≤ 0) : absQ x = -x := by
  unfold absQ
  rcases h.lt_or_eq with h' | h'
  · rw [if_pos h']
  · rw [h']; norm_num

theorem absQ_eq_abs (x : ℚ) : absQ x = |x| := by
  rcases le_or_lt 0 x with h | h
  · rw [absQ_of_nonneg h, abs_of_nonneg h]
  · rw [absQ_of_nonpos h.le, abs_of_neg h]

theorem absQ_sub_comm (x y : ℚ) : absQ (x - y) = absQ (y - x) := by
  rw [absQ_eq_abs, absQ_eq_abs, abs_sub_comm]

theorem absQ_sub_le_iff {c r w : ℚ} : absQ (c - r) ≤ w ↔ r - w ≤ c ∧ c ≤ r + w := by
  rw [absQ_eq_abs, abs_le]
  constructor <;> rintro ⟨h1, h2⟩ <;> constructor <;> linarith

/-- A sorted list seen through a downward-closed predicate: every element kept
by `dropWhile` fails the predicate. -/
theorem dropWhile_all_false (P : ℚ → Bool)
    (hP : ∀ x y : ℚ, x ≤ y → P y = true → P x = true) :
    ∀ ts : List ℚ, ts.Sorted (· ≤ ·) → ∀ x ∈ ts.dropWhile P, P x = false
  | [], _, x, hx => by simp at hx
  | t :: ts, h, x, hx => by
    rcases List.sorted_cons.mp h with ⟨hle, hs⟩
    by_cases hPt : P t = true
    · rw [List.dropWhile_cons, if_pos hPt] at hx
      exact dropWhile_all_false P hP ts hs x hx
    · rw [List.dropWhile_cons, if_neg hPt] at hx
      rcases List.mem_cons.mp hx with rfl | hx
      · exact Bool.eq_false_iff.mpr hPt
      · by_cases hPx : P x = true
        · exact absurd (hP t x (hle x hx) hPx) hPt
        · exact Bool.eq_false_iff.mpr hPx

/-- On a sorted list, counting a downward-closed predicate equals the length
of its `takeWhile` prefix. -/
theorem sorted_countP_eq_length_takeWhile (P : ℚ → Bool)
    (hP : ∀ x y : ℚ, x ≤ y → P y = true → P x = true)
    (ts : List ℚ) (h : ts.Sorted (· ≤ ·)) :
    ts.countP P = (ts.takeWhile P).length := by
  conv_lhs => rw [← List.takeWhile_append_dropWhile P ts]
  rw [List.countP_append,
    List.countP_eq_length.mpr (fun a ha => List.mem_takeWhile_imp ha),
    List.countP_eq_zero.mpr (fun a ha => by
      simp [dropWhile_all_false P hP ts h a ha]),
    Nat.add_zero]

theorem bl_downward (x : ℚ) :
    ∀ a b : ℚ, a ≤ b → decide (b < x) = true → decide (a < x) = true := by
  intro a b hab h
  rw [decide_eq_true_eq] at h ⊢
  linarith

theorem br_downward (x : ℚ) :
    ∀ a b : ℚ, a ≤ b → decide (b ≤ x) = true → decide (a ≤ x) = true := by
  intro a b hab h
  rw [decide_eq_true_eq] at h ⊢
  linarith

theorem is_closest_unique {ref_time : ℚ} {ts : List ℚ} {c c' : ℚ}
    (hti : ∀ t1 ∈ ts, ∀ t2 ∈ ts, absQ (ref_time - t1) = absQ (ref_time - t2) → t1 = t2)
    (h : is_closest ref_time ts c) (h' : is_closest ref_time ts c') : c = c' :=
  hti c h.1 c' h'.1 (le_antisymm (h.2 c' h'.1) (h'.2 c h.1))

theorem headD_spec : ∀ (ts : List ℚ) (d : ℚ), ts ≠ [] → ts.Sorted (· ≤ ·) →
    ts.headD d ∈ ts ∧ ∀ x ∈ ts, ts.headD d ≤ x
  | [], _, h, _ => absurd rfl h
  | t :: ts, d, _, h => by
    rcases List.sorted_cons.mp h with ⟨hle, _⟩
    refine ⟨List.mem_cons_self .., ?_⟩
    intro x hx
    rcases List.mem_cons.mp hx with rfl | hx
    · exact le_refl _
    · exact hle x hx

theorem getLastD_spec : ∀ (ts : List ℚ) (d : ℚ), ts ≠ [] → ts.Sorted (· ≤ ·) →
    ts.getLastD d ∈ ts ∧ ∀ x ∈ ts, x ≤ ts.getLastD d
  | [], _, h, _ => absurd rfl h
  | [t], d, _, _ => by simp
  | t :: t' :: ts, d, _, h => by
    rcases List.sorted_cons.mp h with ⟨hle, hs⟩
    have ih := getLastD_spec (t' :: ts) t (by simp) hs
    rw [List.getLastD_cons]
    refine ⟨List.mem_cons_of_mem _ ih.1, ?_⟩
    intro x hx
    rcases List.mem_cons.mp hx with rfl | hx
    · exact hle _ ih.1
    · exact ih.2 x hx

theorem getD_last : ∀ (ts : List ℚ) (d : ℚ), ts ≠ [] →
    ts.getD (ts.length - 1) d = ts.getLastD d
  | [], _, h => absurd rfl h
  | [t], d, _ => by simp
  | t :: t' :: ts, d, _ => by
    have ih := getD_last (t' :: ts) d (by simp)
    simp only [List.length_cons, Nat.add_sub_cancel] at ih ⊢
    rw [List.getD_cons_succ, ih, List.getLastD_cons, List.getLastD_cons,
      List.getLastD_cons]

end Sync

namespace Sync

/-- The running minimum of the brute-force scan keeps the shape
`(c, absQ (ref_time - c))`, returns the initial candidate or a list element,
and minimizes the absolute difference over both. -/
theorem brute_fold_spec (ref_time : ℚ) :
    ∀ (l : List ℚ) (c : ℚ),
      ∃ c', l.foldl
          (fun acc ts => if absQ (ref_time - ts) < acc.2 then (ts, absQ (ref_time - ts)) else acc)
          (c, absQ (ref_time - c)) = (c', absQ (ref_time - c')) ∧
        (c' = c ∨ c' ∈ l) ∧ absQ (ref_time - c') ≤ absQ (ref_time - c) ∧
        ∀ x ∈ l, absQ (ref_time - c') ≤ absQ (ref_time - x)
  | [], c => ⟨c, rfl, Or.inl rfl, le_refl _, by simp⟩
  | x :: l, c => by
    simp only [List.foldl_cons]
    by_cases hx : absQ (ref_time - x) < absQ (ref_time - c)
    · rw [if_pos hx]
      obtain ⟨c', heq, hmem, hle, hall⟩ := brute_fold_spec ref_time l x
      refine ⟨c', heq, ?_, hle.trans hx.le, ?_⟩
      · rcases hmem with rfl | h
        · exact Or.inr (List.mem_cons_self ..)
        · exact Or.inr (List.mem_cons_of_mem _ h)
      · intro y hy
        rcases List.mem_cons.mp hy with rfl | hy
        · exact hle
        · exact hall y hy
    · rw [if_neg hx]
      obtain ⟨c', heq, hmem, hle, hall⟩ := brute_fold_spec ref_time l c
      refine ⟨c', heq, ?_, hle, ?_⟩
      · rcases hmem with rfl | h
        · exact Or.inl rfl
        · exact Or.inr (List.mem_cons_of_mem _ h)
      · intro y hy
        rcases List.mem_cons.mp hy with rfl | hy
        · exact hle.trans (not_lt.mp hx)
        · exact hall y hy

/-- On a non-empty list the brute-force finder returns a list element together
with its absolute difference, and that difference is minimal. -/
theorem find_closest_brute_force_spec (ref_time : ℚ) (ts : List ℚ) (h : ts ≠ []) :
    (find_closest_brute_force ref_time ts).2 =
      absQ (ref_time - (find_closest_brute_force ref_time ts).1) ∧
    is_closest ref_time ts (find_closest_brute_force ref_time ts).1 := by
  match ts, h with
  | t :: l, _ =>
    obtain ⟨c', heq, hmem, hle, hall⟩ := brute_fold_spec ref_time l t
    unfold find_closest_brute_force
    simp only [List.headD_cons, List.tail_cons]
    rw [heq]
    refine ⟨rfl, ?_, ?_⟩
    · rcases hmem with rfl | hm
      · exact List.mem_cons_self ..
      · exact List.mem_cons_of_mem _ hm
    · intro x hx
      rcases List.mem_cons.mp hx with rfl | hx
      · exact hle
      · exact hall x hx

/-- `_find_closest_binary` is the first component of the linear-scan boundary
comparison evaluated at the insertion point: the two code paths are the same
decision tree. -/
theorem binary_eq_boundary (ref_time : ℚ) (ts : List ℚ) :
    find_closest_binary ref_time ts =
      (boundary_closest ts (bisect_left ts ref_time) ref_time).1 := by
  unfold find_closest_binary boundary_closest
  by_cases h0 : bisect_left ts ref_time = 0
  · simp only [if_pos h0]
  · by_cases hl : bisect_left ts ref_time = ts.length
    · simp only [if_neg h0, if_pos hl]
    · simp only [if_neg h0, if_neg hl]
      by_cases hc : absQ (ref_time - ts.getD (bisect_left ts ref_time - 1) 0) <
          absQ (ref_time - ts.getD (bisect_left ts ref_time) 0)
      · rw [if_pos hc, if_pos hc]
      · rw [if_neg hc, if_neg hc]

/-- The boundary comparison at the insertion point of a sorted non-empty list
returns a closest element and its absolute difference. -/
theorem boundary_spec (ref_time : ℚ) (ts : List ℚ) (hne : ts ≠ [])
    (hs : ts.Sorted (· ≤ ·)) :
    (boundary_closest ts (bisect_left ts ref_time) ref_time).2 =
      absQ (ref_time - (boundary_closest ts (bisect_left ts ref_time) ref_time).1) ∧
    is_closest ref_time ts (boundary_closest ts (bisect_left ts ref_time) ref_time).1 := by
  unfold boundary_closest
  by_cases h0 : bisect_left ts ref_time = 0
  · rw [if_pos h0]
    have hge : ∀ x ∈ ts, ref_time ≤ x := by
      intro x hx
      have hd := List.countP_eq_zero.mp h0 x hx
      rw [decide_eq_true_eq] at hd
      exact not_lt.mp hd
    obtain ⟨hmem, hmin⟩ := headD_spec ts 0 hne hs
    refine ⟨rfl, hmem, ?_⟩
    intro x hx
    have e1 : absQ (ref_time - ts.headD 0) = -(ref_time - ts.headD 0) :=
      absQ_of_nonpos (by linarith [hge _ hmem])
    have e2 : absQ (ref_time - x) = -(ref_time - x) :=
      absQ_of_nonpos (by linarith [hge _ hx])
    show absQ (ref_time - ts.headD 0) ≤ absQ (ref_time - x)
    rw [e1, e2]
    have := hmin x hx
    linarith
  · by_cases hl : bisect_left ts ref_time = ts.length
    · rw [if_neg h0, if_pos hl]
      have hlt : ∀ x ∈ ts, x < ref_time := by
        intro x hx
        have hd := List.countP_eq_length.mp hl x hx
        rwa [decide_eq_true_eq] at hd
      obtain ⟨hmem, hmax⟩ := getLastD_spec ts 0 hne hs
      refine ⟨rfl, hmem, ?_⟩
      intro x hx
      have e1 : absQ (ref_time - ts.getLastD 0) = ref_time - ts.getLastD 0 :=
        absQ_of_nonneg (by linarith [hlt _ hmem])
      have e2 : absQ (ref_time - x) = ref_time - x :=
        absQ_of_nonneg (by linarith [hlt _ hx])
      show absQ (ref_time - ts.getLastD 0) ≤ absQ (ref_time - x)
      rw [e1, e2]
      have := hmax x hx
      linarith
    · rw [if_neg h0, if_neg hl]
      have hsplit := List.takeWhile_append_dropWhile (fun t => decide (t < ref_time)) ts
      have hcount : bisect_left ts ref_time =
          (ts.takeWhile (fun t => decide (t < ref_time))).length :=
        sorted_countP_eq_length_takeWhile _ (bl_downward ref_time) ts hs
      set A := ts.takeWhile (fun t => decide (t < ref_time)) with hAdef
      set B := ts.dropWhile (fun t => decide (t < ref_time)) with hBdef
      have hA_lt : ∀ x ∈ A, x < ref_time := by
        intro x hx
        have hd := List.mem_takeWhile_imp hx
        rwa [decide_eq_true_eq] at hd
      have hB_ge : ∀ x ∈ B, ref_time ≤ x := by
        intro x hx
        have hd := dropWhile_all_false _ (bl_downward ref_time) ts hs x hx
        rw [Bool.eq_false_iff] at hd
        have hd' : ¬ (x < ref_time) := fun hc => hd (decide_eq_true hc)
        exact not_lt.mp hd'
      have hAne : A ≠ [] := by
        intro hc
        rw [hcount, hc] at h0
        exact h0 rfl
      have hBne : B ≠ [] := by
        intro hc
        apply hl
        rw [hcount, ← hsplit, hc, List.append_nil]
      have hsA : A.Sorted (· ≤ ·) := List.Pairwise.sublist (List.takeWhile_sublist _) hs
      have hsB : B.Sorted (· ≤ ·) := List.Pairwise.sublist (List.dropWhile_sublist _) hs
      have hpred : ts.getD (bisect_left ts ref_time - 1) 0 = A.getLastD 0 := by
        rw [hcount]
        conv_lhs => rw [← hsplit]
        rw [List.getD_append _ _ _ _ (Nat.sub_lt (List.length_pos.mpr hAne) (by norm_num))]
        exact getD_last A 0 hAne
      obtain ⟨b, B', hBcons⟩ := List.exists_cons_of_ne_nil hBne
      have hsucc : ts.getD (bisect_left ts ref_time) 0 = B.headD 0 := by
        rw [hcount]
        conv_lhs => rw [← hsplit]
        rw [List.getD_append_right _ _ _ _ (le_refl _), Nat.sub_self, hBcons]
        rfl
      obtain ⟨hpmem, hpmax⟩ := getLastD_spec A 0 hAne hsA
      obtain ⟨hsmem, hsmin⟩ := headD_spec B 0 hBne hsB
      have hpd : absQ (ref_time - A.getLastD 0) = ref_time - A.getLastD 0 :=
        absQ_of_nonneg (by linarith [hA_lt _ hpmem])
      have hnd : absQ (ref_time - B.headD 0) = -(ref_time - B.headD 0) :=
        absQ_of_nonpos (by linarith [hB_ge _ hsmem])
      have hminA : ∀ x ∈ A, absQ (ref_time - A.getLastD 0) ≤ absQ (ref_time - x) := by
        intro x hx
        have e : absQ (ref_time - x) = ref_time - x :=
          absQ_of_nonneg (by linarith [hA_lt _ hx])
        rw [hpd, e]
        have := hpmax x hx
        linarith
      have hminB : ∀ x ∈ B, absQ (ref_time - B.headD 0) ≤ absQ (ref_time - x) := by
        intro x hx
        have e : absQ (ref_time - x) = -(ref_time - x) :=
          absQ_of_nonpos (by linarith [hB_ge _ hx])
        rw [hnd, e]
        have := hsmin x hx
        linarith
      have hmemts : ∀ x : ℚ, x ∈ A ∨ x ∈ B → x ∈ ts := by
        intro x hx
        rw [← hsplit]
        exact List.mem_append.mpr hx
      rw [hpred, hsucc]
      by_cases hc : absQ (ref_time - A.getLastD 0) < absQ (ref_time - B.headD 0)
      · rw [if_pos hc]
        refine ⟨rfl, hmemts _ (Or.inl hpmem), ?_⟩
        intro x hx
        have hx' : x ∈ A ∨ x ∈ B := by
          rw [← hsplit] at hx
          exact List.mem_append.mp hx
        show absQ (ref_time - A.getLastD 0) ≤ absQ (ref_time - x)
        rcases hx' with hx' | hx'
        · exact hminA x hx'
        · exact hc.le.trans (hminB x hx')
      · rw [if_neg hc]
        refine ⟨rfl, hmemts _ (Or.inr hsmem), ?_⟩
        intro x hx
        have hx' : x ∈ A ∨ x ∈ B := by
          rw [← hsplit] at hx
          exact List.mem_append.mp hx
        show absQ (ref_time - B.headD 0) ≤ absQ (ref_time - x)
        rcases hx' with hx' | hx'
        · exact (not_lt.mp hc).trans (hminA x hx')
        · exact hminB x hx'

/-- The binary-search finder on a sorted non-empty list returns a closest
element. -/
theorem find_closest_binary_spec (ref_time : ℚ) (ts : List ℚ) (hne : ts ≠ [])
    (hs : ts.Sorted (· ≤ ·)) :
    is_closest ref_time ts (find_closest_binary ref_time ts) := by
  rw [binary_eq_boundary]
  exact (boundary_spec ref_time ts hne hs).2

end Sync

namespace Sync

theorem takeWhile_append_of_all {P : ℚ → Bool} :
    ∀ {l₁ l₂ : List ℚ}, (∀ x ∈ l₁, P x = true) →
      (l₁ ++ l₂).takeWhile P = l₁ ++ l₂.takeWhile P
  | [], l₂, _ => rfl
  | x :: l₁, l₂, h => by
    rw [List.cons_append, List.takeWhile_cons, if_pos (h x (List.mem_cons_self ..)),
      takeWhile_append_of_all (fun y hy => h y (List.mem_cons_of_mem _ hy)),
      List.cons_append]

theorem takeWhile_nil_of_all_false {P : ℚ → Bool} {l : List ℚ}
    (h : ∀ x ∈ l, P x = false) : l.takeWhile P = [] := by
  cases l with
  | nil => rfl
  | cons x l =>
    rw [List.takeWhile_cons, if_neg (by simp [h x (List.mem_cons_self ..)])]

/-- When the cursor has not passed the insertion point of a sorted series, the
linear-scan advance loop lands exactly on the insertion point. -/
theorem advance_idx_eq (ref_time : ℚ) (ts : List ℚ) (idx : Nat)
    (hs : ts.Sorted (· ≤ ·)) (hle : idx ≤ bisect_left ts ref_time) :
    advance_idx ts idx ref_time = bisect_left ts ref_time := by
  have hcount : bisect_left ts ref_time =
      (ts.takeWhile (fun t => decide (t < ref_time))).length :=
    sorted_countP_eq_length_takeWhile _ (bl_downward ref_time) ts hs
  have hsplit := List.takeWhile_append_dropWhile (fun t => decide (t < ref_time)) ts
  have hle' : idx ≤ (ts.takeWhile (fun t => decide (t < ref_time))).length := by omega
  unfold advance_idx
  rw [hcount]
  conv_lhs => rw [← hsplit]
  rw [List.drop_append_eq_append_drop, Nat.sub_eq_zero_of_le hle', List.drop_zero,
    takeWhile_append_of_all (fun x hx => List.mem_takeWhile_imp (List.mem_of_mem_drop hx)),
    takeWhile_nil_of_all_false
      (fun x hx => dropWhile_all_false _ (bl_downward ref_time) ts hs x hx),
    List.append_nil, List.length_drop]
  omega

theorem bisect_left_mono (ts : List ℚ) {r r' : ℚ} (h : r ≤ r') :
    bisect_left ts r ≤ bisect_left ts r' :=
  List.countP_mono_left (fun x _ hx => by
    rw [decide_eq_true_eq] at hx ⊢
    linarith)

theorem bisect_left_le_length (ts : List ℚ) (r : ℚ) :
    bisect_left ts r ≤ ts.length :=
  List.countP_le_length _

/-- Shape and admission facts for an accepted brute-force entry list: the
sensors appear in order and every entry is the finder result, admitted by the
threshold check. -/
theorem brute_entries_spec (s : Synchronizer) (ref_time : ℚ) :
    ∀ (sl : List String) (es : List (String × ℚ)),
      s.brute_entries ref_time sl = some es →
      es.map Prod.fst = sl ∧
      ∀ p ∈ es, p.2 = (find_closest_brute_force ref_time (s.series p.1)).1 ∧
        (find_closest_brute_force ref_time (s.series p.1)).2 ≤ s.max_time_diff
  | [], es, h => by
    simp only [Synchronizer.brute_entries, Option.some.injEq] at h
    subst h
    exact ⟨rfl, by simp⟩
  | sensor :: rest, es, h => by
    simp only [Synchronizer.brute_entries] at h
    by_cases hc : (find_closest_brute_force ref_time (s.series sensor)).2 ≤ s.max_time_diff
    · rw [if_pos hc, Option.map_eq_some'] at h
      obtain ⟨es', hrec, rfl⟩ := h
      obtain ⟨ih1, ih2⟩ := brute_entries_spec s ref_time rest es' hrec
      constructor
      · simp [ih1]
      · intro p hp
        rcases List.mem_cons.mp hp with rfl | hp
        · exact ⟨rfl, hc⟩
        · exact ih2 p hp
    · rw [if_neg hc] at h
      cases h

/-- The brute-force sensor loop accepts exactly when every sensor of the list
passes the admission check. -/
theorem brute_entries_isSome (s : Synchronizer) (ref_time : ℚ) :
    ∀ sl : List String,
      (s.brute_entries ref_time sl).isSome = true ↔
        ∀ sensor ∈ sl,
          (find_closest_brute_force ref_time (s.series sensor)).2 ≤ s.max_time_diff
  | [] => by simp [Synchronizer.brute_entries]
  | sensor :: rest => by
    simp only [Synchronizer.brute_entries]
    by_cases hc : (find_closest_brute_force ref_time (s.series sensor)).2 ≤ s.max_time_diff
    · rw [if_pos hc, Option.isSome_map', brute_entries_isSome s ref_time rest]
      constructor
      · intro h x hx
        rcases List.mem_cons.mp hx with rfl | hx
        · exact hc
        · exact h x hx
      · intro h x hx
        exact h x (List.mem_cons_of_mem _ hx)
    · rw [if_neg hc]
      simp only [Option.isSome_none, Bool.false_eq_true, false_iff, not_forall]
      exact ⟨sensor, List.mem_cons_self .., hc⟩

/-- Shape and admission facts for an accepted binary-search entry list. -/
theorem binary_entries_spec (s : Synchronizer) (ref_time : ℚ) :
    ∀ (sl : List String) (es : List (String × ℚ)),
      s.binary_entries ref_time sl = some es →
      es.map Prod.fst = sl ∧
      ∀ p ∈ es, p.2 = find_closest_binary ref_time (s.series p.1) ∧
        absQ (ref_time - p.2) ≤ s.max_time_diff
  | [], es, h => by
    simp only [Synchronizer.binary_entries, Option.some.injEq] at h
    subst h
    exact ⟨rfl, by simp⟩
  | sensor :: rest, es, h => by
    simp only [Synchronizer.binary_entries] at h
    by_cases hc : absQ (ref_time - find_closest_binary ref_time (s.series sensor)) ≤
        s.max_time_diff
    · rw [if_pos hc, Option.map_eq_some'] at h
      obtain ⟨es', hrec, rfl⟩ := h
      obtain ⟨ih1, ih2⟩ := binary_entries_spec s ref_time rest es' hrec
      constructor
      · simp [ih1]
      · intro p hp
        rcases List.mem_cons.mp hp with rfl | hp
        · exact ⟨rfl, hc⟩
        · exact ih2 p hp
    · rw [if_neg hc] at h
      cases h

/-- The binary-search sensor loop accepts exactly when every sensor of the
list passes the admission check. -/
theorem binary_entries_isSome (s : Synchronizer) (ref_time : ℚ) :
    ∀ sl : List String,
      (s.binary_entries ref_time sl).isSome = true ↔
        ∀ sensor ∈ sl,
          absQ (ref_time - find_closest_binary ref_time (s.series sensor)) ≤ s.max_time_diff
  | [] => by simp [Synchronizer.binary_entries]
  | sensor :: rest => by
    simp only [Synchronizer.binary_entries]
    by_cases hc : absQ (ref_time - find_closest_binary ref_time (s.series sensor)) ≤
        s.max_time_diff
    · rw [if_pos hc, Option.isSome_map', binary_entries_isSome s ref_time rest]
      constructor
      · intro h x hx
        rcases List.mem_cons.mp hx with rfl | hx
        · exact hc
        · exact h x hx
      · intro h x hx
        exact h x (List.mem_cons_of_mem _ hx)
    · rw [if_neg hc]
      simp only [Option.isSome_none, Bool.false_eq_true, false_iff, not_forall]
      exact ⟨sensor, List.mem_cons_self .., hc⟩

end Sync

namespace Sync

/-- A stronger predicate takes a longer `takeWhile` prefix. -/
theorem takeWhile_prefix {P Q : ℚ → Bool} (h : ∀ t : ℚ, P t = true → Q t = true) :
    ∀ l : List ℚ, ∃ suffix, l.takeWhile Q = l.takeWhile P ++ suffix
  | [] => ⟨[], rfl⟩
  | a :: l => by
    by_cases hP : P a = true
    · obtain ⟨suf, hsuf⟩ := takeWhile_prefix h l
      refine ⟨suf, ?_⟩
      rw [List.takeWhile_cons Q, List.takeWhile_cons P, if_pos hP, if_pos (h a hP), hsuf,
        List.cons_append]
    · refine ⟨(a :: l).takeWhile Q, ?_⟩
      rw [show (a :: l).takeWhile P = [] from by rw [List.takeWhile_cons, if_neg hP],
        List.nil_append]

/-- When the two bisections cross, no element of the sorted list lies in
`[lo, hi]`. -/
theorem sorted_no_candidate (lo hi : ℚ) (ts : List ℚ) (hs : ts.Sorted (· ≤ ·))
    (hij : bisect_right ts hi ≤ bisect_left ts lo) :
    ∀ x ∈ ts, ¬ (lo ≤ x ∧ x ≤ hi) := by
  rintro x hx ⟨hlo, hhi⟩
  have hbl : bisect_left ts lo = (ts.takeWhile (fun t => decide (t < lo))).length :=
    sorted_countP_eq_length_takeWhile _ (bl_downward lo) ts hs
  have hbr : bisect_right ts hi = (ts.takeWhile (fun t => decide (t ≤ hi))).length :=
    sorted_countP_eq_length_takeWhile _ (br_downward hi) ts hs
  have himp : ∀ t : ℚ, decide (t < lo) = true → decide (t ≤ hi) = true := by
    intro t ht
    rw [decide_eq_true_eq] at ht ⊢
    linarith
  obtain ⟨suf, hsuf⟩ := takeWhile_prefix himp ts
  have hxT2 : x ∈ ts.takeWhile (fun t => decide (t ≤ hi)) := by
    have hsplit2 := List.takeWhile_append_dropWhile (fun t => decide (t ≤ hi)) ts
    rcases List.mem_append.mp (by rw [hsplit2]; exact hx) with h2 | h2
    · exact h2
    · have hf := dropWhile_all_false _ (br_downward hi) ts hs x h2
      rw [Bool.eq_false_iff] at hf
      exact absurd (decide_eq_true hhi) hf
  have hxT1 : x ∉ ts.takeWhile (fun t => decide (t < lo)) := by
    intro hc
    have hm := List.mem_takeWhile_imp hc
    rw [decide_eq_true_eq] at hm
    linarith
  rw [hsuf] at hxT2
  rcases List.mem_append.mp hxT2 with h2 | h2
  · exact hxT1 h2
  · have hlen : bisect_right ts hi = bisect_left ts lo + suf.length := by
      rw [hbl, hbr, hsuf, List.length_append]
    have hpos : 0 < suf.length := List.length_pos.mpr (fun hc => by simp [hc] at h2)
    omega

/-- When the two bisections do not cross on a sorted list, the Python slice
`timestamps[start:end]` is exactly the sublist of elements in `[lo, hi]`. -/
theorem sorted_slice_eq (lo hi : ℚ) (ts : List ℚ) (hs : ts.Sorted (· ≤ ·))
    (hij : bisect_left ts lo < bisect_right ts hi) :
    ∃ suf, (ts.drop (bisect_left ts lo)).take (bisect_right ts hi - bisect_left ts lo) = suf ∧
      suf ≠ [] ∧ (∀ x ∈ suf, x ∈ ts ∧ lo ≤ x ∧ x ≤ hi) ∧
      (∀ x ∈ ts, lo ≤ x → x ≤ hi → x ∈ suf) := by
  have hbl : bisect_left ts lo = (ts.takeWhile (fun t => decide (t < lo))).length :=
    sorted_countP_eq_length_takeWhile _ (bl_downward lo) ts hs
  have hbr : bisect_right ts hi = (ts.takeWhile (fun t => decide (t ≤ hi))).length :=
    sorted_countP_eq_length_takeWhile _ (br_downward hi) ts hs
  have hlohi : lo ≤ hi := by
    by_contra hc
    push_neg at hc
    have himp : ∀ t : ℚ, decide (t ≤ hi) = true → decide (t < lo) = true := by
      intro t ht
      rw [decide_eq_true_eq] at ht ⊢
      linarith
    obtain ⟨suf, hsuf⟩ := takeWhile_prefix himp ts
    have : bisect_left ts lo = bisect_right ts hi + suf.length := by
      rw [hbl, hbr, hsuf, List.length_append]
    omega
  have himp : ∀ t : ℚ, decide (t < lo) = true → decide (t ≤ hi) = true := by
    intro t ht
    rw [decide_eq_true_eq] at ht ⊢
    linarith
  obtain ⟨suf, hsuf⟩ := takeWhile_prefix himp ts
  have hlen2 : (ts.takeWhile (fun t => decide (t ≤ hi))).length =
      (ts.takeWhile (fun t => decide (t < lo))).length + suf.length := by
    rw [hsuf, List.length_append]
  have hlen12 : (ts.takeWhile (fun t => decide (t < lo))).length ≤
      (ts.takeWhile (fun t => decide (t ≤ hi))).length := by omega
  have hD1 : ts.dropWhile (fun t => decide (t < lo)) =
      suf ++ ts.dropWhile (fun t => decide (t ≤ hi)) := by
    apply @List.append_cancel_left _ (ts.takeWhile (fun t => decide (t < lo)))
    rw [List.takeWhile_append_dropWhile, ← List.append_assoc, ← hsuf,
      List.takeWhile_append_dropWhile]
  have h1 : ts.drop (ts.takeWhile (fun t => decide (t < lo))).length =
      (ts.takeWhile (fun t => decide (t ≤ hi))).drop
        (ts.takeWhile (fun t => decide (t < lo))).length ++
      ts.dropWhile (fun t => decide (t ≤ hi)) := by
    calc ts.drop (ts.takeWhile (fun t => decide (t < lo))).length
        = ((ts.takeWhile (fun t => decide (t ≤ hi))) ++
            ts.dropWhile (fun t => decide (t ≤ hi))).drop
            (ts.takeWhile (fun t => decide (t < lo))).length := by
          rw [List.takeWhile_append_dropWhile]
      _ = _ := by
          rw [List.drop_append_eq_append_drop, Nat.sub_eq_zero_of_le hlen12, List.drop_zero]
  have hdropT2 : (ts.takeWhile (fun t => decide (t ≤ hi))).drop
      (ts.takeWhile (fun t => decide (t < lo))).length = suf := by
    rw [hsuf, List.drop_left]
  have hslice : (ts.drop (bisect_left ts lo)).take (bisect_right ts hi - bisect_left ts lo) =
      suf := by
    rw [hbl, hbr, h1, hdropT2]
    have hcnt : (ts.takeWhile (fun t => decide (t ≤ hi))).length -
        (ts.takeWhile (fun t => decide (t < lo))).length = suf.length := by omega
    rw [hcnt, List.take_left]
  refine ⟨suf, hslice, ?_, ?_, ?_⟩
  · have hpos : 0 < suf.length := by
      rw [hbl, hbr] at hij
      omega
    exact List.ne_nil_of_length_pos hpos
  · intro x hx
    have hxT2 : x ∈ ts.takeWhile (fun t => decide (t ≤ hi)) := by
      rw [hsuf]
      exact List.mem_append.mpr (Or.inr hx)
    refine ⟨(List.takeWhile_sublist _).subset hxT2, ?_, ?_⟩
    · have hxD1 : x ∈ ts.dropWhile (fun t => decide (t < lo)) := by
        rw [hD1]
        exact List.mem_append.mpr (Or.inl hx)
      have hf := dropWhile_all_false _ (bl_downward lo) ts hs x hxD1
      rw [Bool.eq_false_iff] at hf
      have : ¬ (x < lo) := fun hc => hf (decide_eq_true hc)
      linarith [not_lt.mp this]
    · have hm := List.mem_takeWhile_imp hxT2
      rwa [decide_eq_true_eq] at hm
  · intro x hx hxlo hxhi
    have hxT2 : x ∈ ts.takeWhile (fun t => decide (t ≤ hi)) := by
      have hsplit2 := List.takeWhile_append_dropWhile (fun t => decide (t ≤ hi)) ts
      rcases List.mem_append.mp (by rw [hsplit2]; exact hx) with h2 | h2
      · exact h2
      · have hf := dropWhile_all_false _ (br_downward hi) ts hs x h2
        rw [Bool.eq_false_iff] at hf
        exact absurd (decide_eq_true hxhi) hf
    rw [hsuf] at hxT2
    rcases List.mem_append.mp hxT2 with h2 | h2
    · have hm := List.mem_takeWhile_imp h2
      rw [decide_eq_true_eq] at hm
      linarith
    · exact h2

/-- The running minimum of the Python `min(..., key=lambda x: abs(x - ref_time))`
scan. -/
theorem window_fold_spec (ref_time : ℚ) :
    ∀ (l : List ℚ) (c : ℚ),
      ∃ c', l.foldl
          (fun best x => if absQ (x - ref_time) < absQ (best - ref_time) then x else best) c = c' ∧
        (c' = c ∨ c' ∈ l) ∧ absQ (c' - ref_time) ≤ absQ (c - ref_time) ∧
        ∀ x ∈ l, absQ (c' - ref_time) ≤ absQ (x - ref_time)
  | [], c => ⟨c, rfl, Or.inl rfl, le_refl _, by simp⟩
  | x :: l, c => by
    simp only [List.foldl_cons]
    by_cases hx : absQ (x - ref_time) < absQ (c - ref_time)
    · rw [if_pos hx]
      obtain ⟨c', heq, hmem, hle, hall⟩ := window_fold_spec ref_time l x
      refine ⟨c', heq, ?_, hle.trans hx.le, ?_⟩
      · rcases hmem with rfl | h
        · exact Or.inr (List.mem_cons_self ..)
        · exact Or.inr (List.mem_cons_of_mem _ h)
      · intro y hy
        rcases List.mem_cons.mp hy with rfl | hy
        · exact hle
        · exact hall y hy
    · rw [if_neg hx]
      obtain ⟨c', heq, hmem, hle, hall⟩ := window_fold_spec ref_time l c
      refine ⟨c', heq, ?_, hle, ?_⟩
      · rcases hmem with rfl | h
        · exact Or.inl rfl
        · exact Or.inr (List.mem_cons_of_mem _ h)
      · intro y hy
        rcases List.mem_cons.mp hy with rfl | hy
        · exact hle.trans (not_lt.mp hx)
        · exact hall y hy

/-- `_find_closest_in_window` on a sorted series: returns `None` exactly when
no timestamp lies within the window, and otherwise a window element
minimizing the absolute difference over the window. -/
theorem find_closest_in_window_spec (ref_time : ℚ) (ts : List ℚ) (window : ℚ)
    (hs : ts.Sorted (· ≤ ·)) :
    (find_closest_in_window ref_time ts window = none ↔
      ∀ x ∈ ts, ¬ (absQ (x - ref_time) ≤ window)) ∧
    ∀ c, find_closest_in_window ref_time ts window = some c →
      c ∈ ts ∧ absQ (c - ref_time) ≤ window ∧
      ∀ x ∈ ts, absQ (x - ref_time) ≤ window → absQ (c - ref_time) ≤ absQ (x - ref_time) := by
  unfold find_closest_in_window
  by_cases hij : bisect_right ts (ref_time + window) ≤ bisect_left ts (ref_time - window)
  · rw [if_pos hij]
    constructor
    · refine iff_of_true rfl ?_
      intro x hx hc
      rw [absQ_sub_le_iff] at hc
      exact sorted_no_candidate _ _ ts hs hij x hx ⟨hc.1, hc.2⟩
    · intro c hc
      cases hc
  · rw [if_neg hij]
    push_neg at hij
    obtain ⟨suf, hslice, hne, hmem, hall⟩ := sorted_slice_eq _ _ ts hs hij
    rw [hslice]
    obtain ⟨w, ws, rfl⟩ := List.exists_cons_of_ne_nil hne
    obtain ⟨c', heq, hcmem, hcle, hcall⟩ := window_fold_spec ref_time ws w
    simp only [heq]
    have hwmem := hmem w (List.mem_cons_self ..)
    have hc'win : c' ∈ w :: ws := by
      rcases hcmem with rfl | h
      · exact List.mem_cons_self ..
      · exact List.mem_cons_of_mem _ h
    have hc'facts := hmem c' hc'win
    constructor
    · refine iff_of_false (by simp) ?_
      intro hf
      exact hf w hwmem.1 (absQ_sub_le_iff.mpr ⟨hwmem.2.1, hwmem.2.2⟩)
    · intro c hc
      have hcc : c' = c := by
        injection hc
      subst hcc
      refine ⟨hc'facts.1, absQ_sub_le_iff.mpr ⟨hc'facts.2.1, hc'facts.2.2⟩, ?_⟩
      intro x hx hxw
      have hxwin : x ∈ w :: ws := by
        apply hall x hx
        · exact (absQ_sub_le_iff.mp hxw).1
        · exact (absQ_sub_le_iff.mp hxw).2
      rcases List.mem_cons.mp hxwin with rfl | hxws
      · exact hcle
      · exact hcall x hxws

end Sync

namespace Sync

/-- The snd of the boundary comparison is always the absolute difference of
its fst. -/
theorem boundary_diff (ts : List ℚ) (idx : Nat) (ref_time : ℚ) :
    (boundary_closest ts idx ref_time).2 =
      absQ (ref_time - (boundary_closest ts idx ref_time).1) := by
  unfold boundary_closest
  by_cases h0 : idx = 0
  · rw [if_pos h0]
  · rw [if_neg h0]
    by_cases hl : idx = ts.length
    · rw [if_pos hl]
    · rw [if_neg hl]
      dsimp only
      by_cases hc : absQ (ref_time - ts.getD (idx - 1) 0) < absQ (ref_time - ts.getD idx 0)
      · rw [if_pos hc]
      · rw [if_neg hc]

/-- Keys listed by `map Prod.fst` can be looked up. -/
theorem lookup_of_map_fst :
    ∀ (es : List (String × ℚ)) (sn : String), sn ∈ es.map Prod.fst →
      ∃ t, es.lookup sn = some t ∧ (sn, t) ∈ es
  | [], sn, hsn => by simp at hsn
  | (a, b) :: es, sn, hsn => by
    by_cases hax : sn = a
    · subst hax
      refine ⟨b, ?_, List.mem_cons_self ..⟩
      rw [List.lookup_cons]
      simp
    · have hsn' : sn ∈ es.map Prod.fst := by
        simp only [List.map_cons, List.mem_cons] at hsn
        rcases hsn with rfl | hsn
        · exact absurd rfl hax
        · exact hsn
      obtain ⟨t, hlook, hmem⟩ := lookup_of_map_fst es sn hsn'
      refine ⟨t, ?_, List.mem_cons_of_mem _ hmem⟩
      rw [List.lookup_cons]
      simp only [beq_eq_false_iff_ne.mpr hax]
      exact hlook

theorem lookup_cons_self (sn : String) (t : ℚ) (es : List (String × ℚ)) :
    ((sn, t) :: es).lookup sn = some t := by
  rw [List.lookup_cons]
  simp

theorem lookup_cons_ne (sn k : String) (t : ℚ) (es : List (String × ℚ)) (h : sn ≠ k) :
    ((k, t) :: es).lookup sn = es.lookup sn := by
  rw [List.lookup_cons]
  simp only [beq_eq_false_iff_ne.mpr h]

/-- Looking up a key built by mapping the identity into the first component. -/
theorem lookup_map_self (f : String → ℚ) :
    ∀ (l : List String) (x : String), x ∈ l →
      (l.map (fun a => (a, f a))).lookup x = some (f x)
  | [], x, hx => by simp at hx
  | a :: l, x, hx => by
    simp only [List.map_cons]
    by_cases hax : x = a
    · subst hax
      exact lookup_cons_self ..
    · rw [lookup_cons_ne _ _ _ _ hax]
      rcases List.mem_cons.mp hx with rfl | hx
      · exact absurd rfl hax
      · exact lookup_map_self f l x hx

/-- The window dictionary maps each other sensor to its adaptive value. -/
theorem adaptive_map_shape (s : Synchronizer) :
    s.calculate_adaptive_window_sizes =
      s.other_sensors.map (fun sensor => (sensor, s.adaptive_window sensor)) := by
  unfold Synchronizer.calculate_adaptive_window_sizes Synchronizer.adaptive_window
  apply List.map_congr_left
  intro sensor _
  dsimp only
  split_ifs <;> rfl

/-- Looking up an other sensor in the adaptive window dictionary. -/
theorem window_of_adaptive (s : Synchronizer) (sensor : String)
    (hmem : sensor ∈ s.other_sensors) :
    window_of s.calculate_adaptive_window_sizes sensor (s.max_time_diff * 2) =
      s.adaptive_window sensor := by
  unfold window_of
  rw [adaptive_map_shape, lookup_map_self _ _ _ hmem]
  rfl

/-- The adaptive window is never smaller than `max_time_diff * 2`. -/
theorem adaptive_window_ge (s : Synchronizer) (sensor : String) :
    s.max_time_diff * 2 ≤ s.adaptive_window sensor := by
  unfold Synchronizer.adaptive_window
  split_ifs <;> simp [le_max_left]

/-- Shape and admission facts for an accepted hybrid entry list. -/
theorem hybrid_entries_spec (s : Synchronizer) (ws : List (String × ℚ)) (ref_time : ℚ) :
    ∀ (sl : List String) (es : List (String × ℚ)),
      s.hybrid_entries ws ref_time sl = some es →
      es.map Prod.fst = sl ∧
      ∀ p ∈ es, find_closest_in_window ref_time (s.series p.1)
          (window_of ws p.1 (s.max_time_diff * 2)) = some p.2 ∧
        absQ (ref_time - p.2) ≤ s.max_time_diff
  | [], es, h => by
    simp only [Synchronizer.hybrid_entries, Option.some.injEq] at h
    subst h
    exact ⟨rfl, by simp⟩
  | sensor :: rest, es, h => by
    simp only [Synchronizer.hybrid_entries] at h
    split at h
    · rename_i closest hf
      by_cases hc : absQ (ref_time - closest) ≤ s.max_time_diff
      · rw [if_pos hc, Option.map_eq_some'] at h
        obtain ⟨es', hrec, rfl⟩ := h
        obtain ⟨ih1, ih2⟩ := hybrid_entries_spec s ws ref_time rest es' hrec
        constructor
        · simp [ih1]
        · intro p hp
          rcases List.mem_cons.mp hp with rfl | hp
          · exact ⟨hf, hc⟩
          · exact ih2 p hp
      · rw [if_neg hc] at h
        cases h
    · cases h

/-- The hybrid sensor loop accepts exactly when every sensor has an in-window
candidate passing the admission check. -/
theorem hybrid_entries_isSome (s : Synchronizer) (ws : List (String × ℚ)) (ref_time : ℚ) :
    ∀ sl : List String,
      (s.hybrid_entries ws ref_time sl).isSome = true ↔
        ∀ sensor ∈ sl, ∃ c,
          find_closest_in_window ref_time (s.series sensor)
            (window_of ws sensor (s.max_time_diff * 2)) = some c ∧
          absQ (ref_time - c) ≤ s.max_time_diff
  | [] => by simp [Synchronizer.hybrid_entries]
  | sensor :: rest => by
    simp only [Synchronizer.hybrid_entries]
    cases hf : find_closest_in_window ref_time (s.series sensor)
        (window_of ws sensor (s.max_time_diff * 2)) with
    | none =>
      simp only [Option.isSome_none, Bool.false_eq_true, false_iff, not_forall]
      refine ⟨sensor, List.mem_cons_self .., ?_⟩
      rintro ⟨c, hcc, -⟩
      rw [hf] at hcc
      cases hcc
    | some closest =>
      dsimp only
      by_cases hc : absQ (ref_time - closest) ≤ s.max_time_diff
      · rw [if_pos hc, Option.isSome_map', hybrid_entries_isSome s ws ref_time rest]
        constructor
        · intro h x hx
          rcases List.mem_cons.mp hx with rfl | hx
          · exact ⟨closest, hf, hc⟩
          · exact h x hx
        · intro h x hx
          exact h x (List.mem_cons_of_mem _ hx)
      · rw [if_neg hc]
        simp only [Option.isSome_none, Bool.false_eq_true, false_iff, not_forall]
        refine ⟨sensor, List.mem_cons_self .., ?_⟩
        rintro ⟨c, hcc, hle⟩
        rw [hf, Option.some.injEq] at hcc
        subst hcc
        exact hc hle

/-- Shape and admission facts for an accepted linear-scan entry list. -/
theorem linear_step_spec (s : Synchronizer) (ref_time : ℚ) :
    ∀ (st : List (String × Nat)) (es : List (String × ℚ)),
      (s.linear_step ref_time st).1 = some es →
      es.map Prod.fst = st.map Prod.fst ∧
      ∀ p ∈ es, absQ (ref_time - p.2) ≤ s.max_time_diff
  | [], es, h => by
    simp only [Synchronizer.linear_step, Option.some.injEq] at h
    subst h
    exact ⟨rfl, by simp⟩
  | (sensor, idx) :: rest, es, h => by
    simp only [Synchronizer.linear_step] at h
    by_cases hc : (boundary_closest (s.series sensor)
        (advance_idx (s.series sensor) idx ref_time) ref_time).2 ≤ s.max_time_diff
    · rw [if_pos hc] at h
      dsimp only at h
      rw [Option.map_eq_some'] at h
      obtain ⟨es', hrec, rfl⟩ := h
      obtain ⟨ih1, ih2⟩ := linear_step_spec s ref_time rest es' hrec
      constructor
      · simp [ih1]
      · intro p hp
        rcases List.mem_cons.mp hp with rfl | hp
        · rw [← boundary_diff]
          exact hc
        · exact ih2 p hp
    · rw [if_neg hc] at h
      dsimp only at h
      cases h

end Sync

namespace Sync

/-- The snd of the brute-force finder is always the absolute difference of its
fst. -/
theorem find_closest_brute_force_diff (ref_time : ℚ) (ts : List ℚ) :
    (find_closest_brute_force ref_time ts).2 =
      absQ (ref_time - (find_closest_brute_force ref_time ts).1) := by
  obtain ⟨c', heq, -, -, -⟩ := brute_fold_spec ref_time ts.tail (ts.headD 0)
  unfold find_closest_brute_force
  rw [heq]

/-- The linear-scan sensor loop accepts exactly when every cursor-advanced
boundary comparison passes the admission check. -/
theorem linear_step_isSome (s : Synchronizer) (ref_time : ℚ) :
    ∀ st : List (String × Nat),
      ((s.linear_step ref_time st).1.isSome = true ↔
        ∀ p ∈ st, (boundary_closest (s.series p.1)
          (advance_idx (s.series p.1) p.2 ref_time) ref_time).2 ≤ s.max_time_diff)
  | [] => by simp [Synchronizer.linear_step]
  | (sensor, idx) :: rest => by
    simp only [Synchronizer.linear_step]
    by_cases hc : (boundary_closest (s.series sensor)
        (advance_idx (s.series sensor) idx ref_time) ref_time).2 ≤ s.max_time_diff
    · rw [if_pos hc]
      dsimp only
      rw [Option.isSome_map', linear_step_isSome s ref_time rest]
      constructor
      · intro h p hp
        rcases List.mem_cons.mp hp with rfl | hp
        · exact hc
        · exact h p hp
      · intro h p hp
        exact h p (List.mem_cons_of_mem _ hp)
    · rw [if_neg hc]
      dsimp only
      simp only [Option.isSome_none, Bool.false_eq_true, false_iff, not_forall]
      exact ⟨(sensor, idx), List.mem_cons_self .., hc⟩

/-- The cursor dictionary after one linear-scan step: keys unchanged, every
cursor either kept or advanced. -/
theorem linear_step_state (s : Synchronizer) (ref_time : ℚ) :
    ∀ st : List (String × Nat),
      ((s.linear_step ref_time st).2.map Prod.fst = st.map Prod.fst) ∧
      (∀ q ∈ (s.linear_step ref_time st).2, ∃ p, p ∈ st ∧ q.1 = p.1 ∧
        (q.2 = p.2 ∨ q.2 = advance_idx (s.series p.1) p.2 ref_time))
  | [] => by constructor <;> simp [Synchronizer.linear_step]
  | (sensor, idx) :: rest => by
    simp only [Synchronizer.linear_step]
    by_cases hc : (boundary_closest (s.series sensor)
        (advance_idx (s.series sensor) idx ref_time) ref_time).2 ≤ s.max_time_diff
    · rw [if_pos hc]
      dsimp only
      obtain ⟨ih1, ih2⟩ := linear_step_state s ref_time rest
      constructor
      · simp only [List.map_cons, ih1]
      · intro q hq
        rcases List.mem_cons.mp hq with rfl | hq
        · exact ⟨(sensor, idx), List.mem_cons_self .., rfl, Or.inr rfl⟩
        · obtain ⟨p, hp, h1, h2⟩ := ih2 q hq
          exact ⟨p, List.mem_cons_of_mem _ hp, h1, h2⟩
    · rw [if_neg hc]
      dsimp only
      constructor
      · rfl
      · intro q hq
        exact ⟨q, hq, rfl, Or.inl rfl⟩

/-- When every cursor is at or before the insertion point of its sorted
series, one linear-scan step collects exactly the binary-search entries. -/
theorem linear_step_eq_binary (s : Synchronizer) (ref_time : ℚ) :
    ∀ st : List (String × Nat),
      (∀ p ∈ st, (s.series p.1).Sorted (· ≤ ·) ∧
        p.2 ≤ bisect_left (s.series p.1) ref_time) →
      (s.linear_step ref_time st).1 = s.binary_entries ref_time (st.map Prod.fst)
  | [], _ => rfl
  | (sensor, idx) :: rest, h => by
    have hhead := h (sensor, idx) (List.mem_cons_self ..)
    have hadv : advance_idx (s.series sensor) idx ref_time =
        bisect_left (s.series sensor) ref_time :=
      advance_idx_eq ref_time _ idx hhead.1 hhead.2
    have hpair : boundary_closest (s.series sensor)
        (bisect_left (s.series sensor) ref_time) ref_time =
        (find_closest_binary ref_time (s.series sensor),
          absQ (ref_time - find_closest_binary ref_time (s.series sensor))) := by
      refine Prod.ext ?_ ?_
      · rw [← binary_eq_boundary]
      · rw [boundary_diff, ← binary_eq_boundary]
    simp only [Synchronizer.linear_step, Synchronizer.binary_entries, List.map_cons]
    rw [hadv, hpair]
    dsimp only
    by_cases hc : absQ (ref_time - find_closest_binary ref_time (s.series sensor)) ≤
        s.max_time_diff
    · rw [if_pos hc, if_pos hc]
      dsimp only
      rw [linear_step_eq_binary s ref_time rest
        (fun p hp => h p (List.mem_cons_of_mem _ hp))]
    · rw [if_neg hc, if_neg hc]

end Sync

namespace Sync

/-- With sorted, non-empty, tie-free series, the brute-force and binary-search
sensor loops collect identical entries. -/
theorem entries_eq_brute_binary (s : Synchronizer) (ref_time : ℚ) :
    ∀ sl : List String,
      (∀ sensor ∈ sl, (s.series sensor).Sorted (· ≤ ·) ∧ s.series sensor ≠ [] ∧
        (∀ t1 ∈ s.series sensor, ∀ t2 ∈ s.series sensor,
          absQ (ref_time - t1) = absQ (ref_time - t2) → t1 = t2)) →
      s.brute_entries ref_time sl = s.binary_entries ref_time sl
  | [], _ => rfl
  | sensor :: rest, h => by
    obtain ⟨hs, hne, hti⟩ := h sensor (List.mem_cons_self ..)
    have hbs := find_closest_brute_force_spec ref_time (s.series sensor) hne
    have hbin := find_closest_binary_spec ref_time (s.series sensor) hne hs
    have hceq : (find_closest_brute_force ref_time (s.series sensor)).1 =
        find_closest_binary ref_time (s.series sensor) :=
      is_closest_unique hti hbs.2 hbin
    simp only [Synchronizer.brute_entries, Synchronizer.binary_entries]
    rw [find_closest_brute_force_diff, hceq,
      entries_eq_brute_binary s ref_time rest
        (fun x hx => h x (List.mem_cons_of_mem _ hx))]

/-- With a non-negative threshold and sorted, non-empty, tie-free series, the
hybrid windowed loop collects exactly the binary-search entries. -/
theorem entries_eq_hybrid_binary (s : Synchronizer) (ref_time : ℚ)
    (hmtd : 0 ≤ s.max_time_diff) :
    ∀ sl : List String,
      (∀ sensor ∈ sl, sensor ∈ s.other_sensors ∧ (s.series sensor).Sorted (· ≤ ·) ∧
        s.series sensor ≠ [] ∧
        (∀ t1 ∈ s.series sensor, ∀ t2 ∈ s.series sensor,
          absQ (ref_time - t1) = absQ (ref_time - t2) → t1 = t2)) →
      s.hybrid_entries s.calculate_adaptive_window_sizes ref_time sl =
        s.binary_entries ref_time sl
  | [], _ => rfl
  | sensor :: rest, h => by
    obtain ⟨hmem, hs, hne, hti⟩ := h sensor (List.mem_cons_self ..)
    have hwin := window_of_adaptive s sensor hmem
    have hwge : s.max_time_diff ≤ s.adaptive_window sensor := by
      have := adaptive_window_ge s sensor
      linarith
    have hbin := find_closest_binary_spec ref_time (s.series sensor) hne hs
    obtain ⟨hnone_iff, hsome⟩ := find_closest_in_window_spec ref_time (s.series sensor)
      (s.adaptive_window sensor) hs
    have hrec := entries_eq_hybrid_binary s ref_time hmtd rest
      (fun x hx => h x (List.mem_cons_of_mem _ hx))
    simp only [Synchronizer.hybrid_entries, Synchronizer.binary_entries]
    rw [hwin]
    by_cases hcb : absQ (ref_time - find_closest_binary ref_time (s.series sensor)) ≤
        s.max_time_diff
    · have hcwin : absQ (find_closest_binary ref_time (s.series sensor) - ref_time) ≤
          s.adaptive_window sensor := by
        rw [absQ_sub_comm]
        exact hcb.trans hwge
      cases hf : find_closest_in_window ref_time (s.series sensor)
          (s.adaptive_window sensor) with
      | none => exact absurd hcwin (hnone_iff.mp hf _ hbin.1)
      | some c =>
        obtain ⟨hcmem, hcw, hcmin⟩ := hsome c hf
        have hceq : c = find_closest_binary ref_time (s.series sensor) := by
          apply hti c hcmem _ hbin.1
          have h1 : absQ (ref_time - c) ≤
              absQ (ref_time - find_closest_binary ref_time (s.series sensor)) := by
            rw [absQ_sub_comm ref_time c,
              absQ_sub_comm ref_time (find_closest_binary ref_time (s.series sensor))]
            exact hcmin _ hbin.1 hcwin
          exact le_antisymm h1 (hbin.2 c hcmem)
        dsimp only
        rw [hceq, if_pos hcb, if_pos hcb, hrec]
    · rw [if_neg hcb]
      cases hf : find_closest_in_window ref_time (s.series sensor)
          (s.adaptive_window sensor) with
      | none => rfl
      | some c =>
        obtain ⟨hcmem, -, -⟩ := hsome c hf
        have hfar : ¬ (absQ (ref_time - c) ≤ s.max_time_diff) := by
          intro hle
          exact hcb ((hbin.2 c hcmem).trans hle)
        dsimp only
        rw [if_neg hfar]

end Sync

namespace Sync

/-- Building a well-formed row from an accepted entry list. -/
theorem row_ok_of_shape (s : Synchronizer) (ref_time : ℚ) (es : List (String × ℚ))
    (hshape : es.map Prod.fst = s.other_sensors)
    (hadm : ∀ p ∈ es, absQ (ref_time - p.2) ≤ s.max_time_diff) :
    s.row_ok ((s.reference_sensor, ref_time) :: es) := by
  constructor
  · simp [hshape]
  · refine ⟨ref_time, lookup_cons_self .., ?_, ?_⟩
    · intro sensor hsensor
      have hne : sensor ≠ s.reference_sensor := by
        have hmf := List.mem_filter.mp hsensor
        simpa using hmf.2
      rw [lookup_cons_ne _ _ _ _ hne]
      obtain ⟨t, hlook, hmem⟩ := lookup_of_map_fst es sensor (by rw [hshape]; exact hsensor)
      exact ⟨t, hlook, hadm (sensor, t) hmem⟩
    · intro p hp hne
      rcases List.mem_cons.mp hp with rfl | hp
      · exact absurd rfl hne
      · exact hadm p hp

/-- Every brute-force output row is well formed. -/
theorem sync_brute_force_row_ok (s : Synchronizer) :
    ∀ row ∈ s.sync_brute_force, s.row_ok row := by
  intro row hrow
  unfold Synchronizer.sync_brute_force at hrow
  obtain ⟨ref_time, -, hrowe⟩ := List.mem_filterMap.mp hrow
  unfold Synchronizer.brute_row at hrowe
  rw [Option.map_eq_some'] at hrowe
  obtain ⟨es, hes, rfl⟩ := hrowe
  obtain ⟨h1, h2⟩ := brute_entries_spec s ref_time _ es hes
  apply row_ok_of_shape s ref_time es h1
  intro p hp
  obtain ⟨hval, hadm⟩ := h2 p hp
  rw [hval, ← find_closest_brute_force_diff]
  exact hadm

/-- Every binary-search output row is well formed. -/
theorem sync_binary_search_row_ok (s : Synchronizer) :
    ∀ row ∈ s.sync_binary_search, s.row_ok row := by
  intro row hrow
  unfold Synchronizer.sync_binary_search at hrow
  obtain ⟨ref_time, -, hrowe⟩ := List.mem_filterMap.mp hrow
  unfold Synchronizer.binary_row at hrowe
  rw [Option.map_eq_some'] at hrowe
  obtain ⟨es, hes, rfl⟩ := hrowe
  obtain ⟨h1, h2⟩ := binary_entries_spec s ref_time _ es hes
  exact row_ok_of_shape s ref_time es h1 (fun p hp => (h2 p hp).2)

/-- Every hybrid output row is well formed. -/
theorem sync_hybrid_row_ok (s : Synchronizer) :
    ∀ row ∈ s.sync_hybrid, s.row_ok row := by
  intro row hrow
  unfold Synchronizer.sync_hybrid at hrow
  obtain ⟨ref_time, -, hrowe⟩ := List.mem_filterMap.mp hrow
  unfold Synchronizer.hybrid_row at hrowe
  rw [Option.map_eq_some'] at hrowe
  obtain ⟨es, hes, rfl⟩ := hrowe
  obtain ⟨h1, h2⟩ := hybrid_entries_spec s _ ref_time _ es hes
  exact row_ok_of_shape s ref_time es h1 (fun p hp => (h2 p hp).2)

/-- Every linear-scan output row is well formed, whatever the cursor state, as
long as the cursor dictionary lists the other sensors. -/
theorem linear_go_row_ok (s : Synchronizer) :
    ∀ (refs : List ℚ) (st : List (String × Nat)),
      st.map Prod.fst = s.other_sensors →
      ∀ row ∈ s.linear_go refs st, s.row_ok row
  | [], st, hst, row, hrow => by simp [Synchronizer.linear_go] at hrow
  | ref_time :: rest, st, hst, row, hrow => by
    simp only [Synchronizer.linear_go] at hrow
    split at hrow
    · rename_i es st2 hstep
      rcases List.mem_cons.mp hrow with rfl | hrow
      · have hspec := linear_step_spec s ref_time st es (by rw [hstep])
        exact row_ok_of_shape s ref_time es (hspec.1.trans hst) hspec.2
      · have hs2 : st2.map Prod.fst = s.other_sensors := by
          have hmf := (linear_step_state s ref_time st).1
          rw [hstep] at hmf
          exact hmf.trans hst
        exact linear_go_row_ok s rest st2 hs2 row hrow
    · rename_i st2 hstep
      have hs2 : st2.map Prod.fst = s.other_sensors := by
        have hmf := (linear_step_state s ref_time st).1
        rw [hstep] at hmf
        exact hmf.trans hst
      exact linear_go_row_ok s rest st2 hs2 row hrow

/-- Every linear-scan output row is well formed. -/
theorem sync_linear_scan_row_ok (s : Synchronizer) :
    ∀ row ∈ s.sync_linear_scan, s.row_ok row := by
  intro row hrow
  unfold Synchronizer.sync_linear_scan at hrow
  refine linear_go_row_ok s _ s.init_indices ?_ row hrow
  unfold Synchronizer.init_indices
  have hcomp : (Prod.fst ∘ fun sensor : String => (sensor, (0 : Nat))) = id := rfl
  rw [List.map_map, hcomp, List.map_id]

/-- The reference column of rows produced by a per-timestamp row function that
stores its input under the reference key is a sublist of the inputs. -/
theorem ref_column_filterMap_sublist (s : Synchronizer) (f : ℚ → Option Row)
    (hf : ∀ t r, f t = some r → r.lookup s.reference_sensor = some t) :
    ∀ l : List ℚ, (s.ref_column (l.filterMap f)).Sublist l
  | [] => by simp [Synchronizer.ref_column]
  | t :: l => by
    unfold Synchronizer.ref_column
    rw [List.filterMap_cons]
    cases hft : f t with
    | none => exact (ref_column_filterMap_sublist s f hf l).cons t
    | some r =>
      rw [List.filterMap_cons, hf t r hft]
      exact (ref_column_filterMap_sublist s f hf l).cons₂ t

/-- The reference column of the linear scan is a sublist of the processed
reference timestamps. -/
theorem ref_column_linear_go_sublist (s : Synchronizer) :
    ∀ (refs : List ℚ) (st : List (String × Nat)),
      (s.ref_column (s.linear_go refs st)).Sublist refs
  | [], st => List.nil_sublist _
  | ref_time :: rest, st => by
    simp only [Synchronizer.linear_go]
    split
    · rename_i es st2 hstep
      unfold Synchronizer.ref_column
      rw [List.filterMap_cons, lookup_cons_self]
      exact (ref_column_linear_go_sublist s rest st2).cons₂ ref_time
    · rename_i st2 hstep
      exact (ref_column_linear_go_sublist s rest st2).cons ref_time

/-- Row functions of the three stateless algorithms store the reference
timestamp under the reference key. -/
theorem brute_row_lookup (s : Synchronizer) (t : ℚ) (r : Row)
    (h : s.brute_row t = some r) : r.lookup s.reference_sensor = some t := by
  unfold Synchronizer.brute_row at h
  rw [Option.map_eq_some'] at h
  obtain ⟨es, -, rfl⟩ := h
  exact lookup_cons_self ..

theorem binary_row_lookup (s : Synchronizer) (t : ℚ) (r : Row)
    (h : s.binary_row t = some r) : r.lookup s.reference_sensor = some t := by
  unfold Synchronizer.binary_row at h
  rw [Option.map_eq_some'] at h
  obtain ⟨es, -, rfl⟩ := h
  exact lookup_cons_self ..

theorem hybrid_row_lookup (s : Synchronizer) (ws : List (String × ℚ)) (t : ℚ) (r : Row)
    (h : s.hybrid_row ws t = some r) : r.lookup s.reference_sensor = some t := by
  unfold Synchronizer.hybrid_row at h
  rw [Option.map_eq_some'] at h
  obtain ⟨es, -, rfl⟩ := h
  exact lookup_cons_self ..

end Sync

namespace Sync

/-- Under validated input and cursors at or before each insertion point, the
linear scan over sorted reference timestamps produces exactly the
binary-search pass. -/
theorem linear_go_eq_binary (s : Synchronizer) :
    ∀ (refs : List ℚ) (st : List (String × Nat)),
      refs.Sorted (· ≤ ·) →
      (∀ p ∈ st, (s.series p.1).Sorted (· ≤ ·)) →
      (∀ p ∈ st, ∀ r ∈ refs, p.2 ≤ bisect_left (s.series p.1) r) →
      st.map Prod.fst = s.other_sensors →
      s.linear_go refs st = refs.filterMap s.binary_row
  | [], st, _, _, _, _ => rfl
  | ref_time :: rest, st, hsorted, hser, hinv, hst => by
    have hstep : (s.linear_step ref_time st).1 =
        s.binary_entries ref_time (st.map Prod.fst) :=
      linear_step_eq_binary s ref_time st (fun p hp =>
        ⟨hser p hp, hinv p hp ref_time (List.mem_cons_self ..)⟩)
    obtain ⟨hmapfst, hstate⟩ := linear_step_state s ref_time st
    have hser2 : ∀ q ∈ (s.linear_step ref_time st).2, (s.series q.1).Sorted (· ≤ ·) := by
      intro q hq
      obtain ⟨p, hp, h1, -⟩ := hstate q hq
      rw [h1]
      exact hser p hp
    have hinv2 : ∀ q ∈ (s.linear_step ref_time st).2, ∀ r ∈ rest,
        q.2 ≤ bisect_left (s.series q.1) r := by
      intro q hq r hr
      obtain ⟨p, hp, h1, h2⟩ := hstate q hq
      have hr' : ref_time ≤ r := (List.sorted_cons.mp hsorted).1 r hr
      rw [h1]
      rcases h2 with h2 | h2
      · rw [h2]
        exact hinv p hp r (List.mem_cons_of_mem _ hr)
      · rw [h2, advance_idx_eq ref_time _ p.2 (hser p hp)
          (hinv p hp ref_time (List.mem_cons_self ..))]
        exact bisect_left_mono _ hr'
    have hst2 : (s.linear_step ref_time st).2.map Prod.fst = s.other_sensors :=
      hmapfst.trans hst
    have hrest : rest.Sorted (· ≤ ·) := (List.sorted_cons.mp hsorted).2
    simp only [Synchronizer.linear_go, List.filterMap_cons]
    rcases her : s.linear_step ref_time st with ⟨o, st2⟩
    rw [her] at hstep hser2 hinv2 hst2
    cases o with
    | some es =>
      have hrow : s.binary_row ref_time = some ((s.reference_sensor, ref_time) :: es) := by
        unfold Synchronizer.binary_row
        rw [← hst, ← hstep]
        rfl
      rw [hrow]
      dsimp only
      rw [linear_go_eq_binary s rest st2 hrest hser2 hinv2 hst2]
    | none =>
      have hrow : s.binary_row ref_time = none := by
        unfold Synchronizer.binary_row
        rw [← hst, ← hstep]
        rfl
      rw [hrow]
      dsimp only
      exact linear_go_eq_binary s rest st2 hrest hser2 hinv2 hst2

/-- `_should_skip_first_timestamp` as a proposition. -/
theorem should_skip_iff (s : Synchronizer) (first_time : ℚ) :
    s.should_skip_first_timestamp first_time = true ↔
      ∃ sensor ∈ s.other_sensors, ∀ ts ∈ s.series sensor,
        ¬ (absQ (first_time - ts) ≤ s.max_time_diff) := by
  unfold Synchronizer.should_skip_first_timestamp
  rw [List.any_eq_true]
  constructor
  · rintro ⟨sensor, hmem, hsensor⟩
    refine ⟨sensor, hmem, ?_⟩
    intro ts hts hc
    rw [Bool.not_eq_true', List.any_eq_false] at hsensor
    have hf := hsensor ts hts
    exact hf (decide_eq_true hc)
  · rintro ⟨sensor, hmem, hsensor⟩
    refine ⟨sensor, hmem, ?_⟩
    rw [Bool.not_eq_true', List.any_eq_false]
    intro ts hts
    simpa using hsensor ts hts

/-- A sensor with no close timestamp forces the brute-force row to be
rejected. -/
theorem brute_row_none_of_far (s : Synchronizer) (ref_time : ℚ)
    (hne : ∀ sensor ∈ s.other_sensors, s.series sensor ≠ [])
    (hfar : ∃ sensor ∈ s.other_sensors, ∀ ts ∈ s.series sensor,
      ¬ (absQ (ref_time - ts) ≤ s.max_time_diff)) :
    s.brute_row ref_time = none := by
  obtain ⟨sensor, hmem, hts⟩ := hfar
  unfold Synchronizer.brute_row
  have hnot : ¬ ((s.brute_entries ref_time s.other_sensors).isSome = true) := by
    rw [brute_entries_isSome s ref_time s.other_sensors]
    intro hall
    have hc := hall sensor hmem
    have hspec := find_closest_brute_force_spec ref_time (s.series sensor) (hne sensor hmem)
    apply hts _ hspec.2.1
    rw [← find_closest_brute_force_diff]
    exact hc
  cases ho : s.brute_entries ref_time s.other_sensors with
  | none => rfl
  | some es =>
    rw [ho] at hnot
    simp at hnot

/-- A sensor with no close timestamp forces the binary-search row to be
rejected. -/
theorem binary_row_none_of_far (s : Synchronizer) (ref_time : ℚ)
    (hs : ∀ sensor ∈ s.other_sensors, (s.series sensor).Sorted (· ≤ ·))
    (hne : ∀ sensor ∈ s.other_sensors, s.series sensor ≠ [])
    (hfar : ∃ sensor ∈ s.other_sensors, ∀ ts ∈ s.series sensor,
      ¬ (absQ (ref_time - ts) ≤ s.max_time_diff)) :
    s.binary_row ref_time = none := by
  obtain ⟨sensor, hmem, hts⟩ := hfar
  unfold Synchronizer.binary_row
  have hnot : ¬ ((s.binary_entries ref_time s.other_sensors).isSome = true) := by
    rw [binary_entries_isSome s ref_time s.other_sensors]
    intro hall
    have hc := hall sensor hmem
    have hspec := find_closest_binary_spec ref_time (s.series sensor)
      (hne sensor hmem) (hs sensor hmem)
    exact hts _ hspec.1 hc
  cases ho : s.binary_entries ref_time s.other_sensors with
  | none => rfl
  | some es =>
    rw [ho] at hnot
    simp at hnot

/-- A sensor with no close timestamp forces the hybrid row to be rejected. -/
theorem hybrid_row_none_of_far (s : Synchronizer) (ref_time : ℚ)
    (hs : ∀ sensor ∈ s.other_sensors, (s.series sensor).Sorted (· ≤ ·))
    (hfar : ∃ sensor ∈ s.other_sensors, ∀ ts ∈ s.series sensor,
      ¬ (absQ (ref_time - ts) ≤ s.max_time_diff)) :
    s.hybrid_row s.calculate_adaptive_window_sizes ref_time = none := by
  obtain ⟨sensor, hmem, hts⟩ := hfar
  unfold Synchronizer.hybrid_row
  have hnot : ¬ ((s.hybrid_entries s.calculate_adaptive_window_sizes ref_time
      s.other_sensors).isSome = true) := by
    rw [hybrid_entries_isSome]
    intro hall
    obtain ⟨c, hcf, hcle⟩ := hall sensor hmem
    have hspec := (find_closest_in_window_spec ref_time (s.series sensor)
      (window_of s.calculate_adaptive_window_sizes sensor (s.max_time_diff * 2))
      (hs sensor hmem)).2 c hcf
    exact hts c hspec.1 hcle
  cases ho : s.hybrid_entries s.calculate_adaptive_window_sizes ref_time s.other_sensors with
  | none => rfl
  | some es =>
    rw [ho] at hnot
    simp at hnot

end Sync

namespace Sync

theorem sortedQ_sorted (l : List ℚ) : (sortedQ l).Sorted (· ≤ ·) :=
  List.sorted_insertionSort _ l

theorem sortedQ_ne_nil {l : List ℚ} (h : l ≠ []) : sortedQ l ≠ [] := by
  intro hc
  apply h
  have hp := List.perm_insertionSort (· ≤ ·) l
  unfold sortedQ at hc
  rw [hc] at hp
  exact hp.nil_eq.symm

/-- The adjacent-pair check of `_validate_input` never fires on a sorted
series. -/
theorem unsorted_check_sorted : ∀ {l : List ℚ}, l.Sorted (· ≤ ·) → unsorted_check l = false
  | [], _ => rfl
  | [_], _ => rfl
  | x :: y :: t, h => by
    obtain ⟨hle, hs⟩ := List.sorted_cons.mp h
    have hxy : x ≤ y := hle y (List.mem_cons_self ..)
    have ih := unsorted_check_sorted hs
    unfold unsorted_check at ih ⊢
    simp only [List.tail_cons, List.zip_cons_cons, List.any_cons] at ih ⊢
    rw [Bool.or_eq_false_iff]
    exact ⟨decide_eq_false (not_lt.mpr hxy), ih⟩

/-- A lookup succeeds exactly on listed keys. -/
theorem lookup_isSome_iff :
    ∀ (l : List (String × List ℚ)) (k : String),
      (l.lookup k).isSome = true ↔ k ∈ l.map Prod.fst
  | [], k => by simp
  | (a, v) :: l, k => by
    simp only [List.map_cons, List.mem_cons]
    by_cases hak : k = a
    · subst hak
      rw [List.lookup_cons]
      simp
    · rw [List.lookup_cons]
      simp only [beq_eq_false_iff_ne.mpr hak]
      rw [lookup_isSome_iff l k]
      constructor
      · exact Or.inr
      · rintro (rfl | h)
        · exact absurd rfl hak
        · exact h

/-- The per-sensor validation loop on constructor-sorted series succeeds
exactly when every original series is non-empty (the sortedness check can
never fire because the constructor already sorted every series). -/
theorem validate_series_mapped :
    ∀ msgs : List (String × List ℚ),
      (validate_series (msgs.map (fun p => (p.1, sortedQ p.2))) = Except.ok ()) ↔
        ∀ p ∈ msgs, p.2 ≠ []
  | [] => by simp [validate_series]
  | (sensor, ts) :: rest => by
    simp only [List.map_cons, validate_series]
    by_cases hts : ts = []
    · subst hts
      refine iff_of_false ?_ ?_
      · intro hc
        rw [show (sortedQ []).isEmpty = true from rfl] at hc
        rw [if_pos rfl] at hc
        cases hc
      · intro hall
        exact hall (sensor, []) (List.mem_cons_self ..) rfl
    · obtain ⟨a, l', heq⟩ := List.exists_cons_of_ne_nil (sortedQ_ne_nil hts)
      rw [heq]
      rw [show (a :: l').isEmpty = false from rfl]
      rw [if_neg (by simp)]
      rw [← heq, unsorted_check_sorted (sortedQ_sorted ts)]
      rw [if_neg (by simp)]
      rw [validate_series_mapped rest]
      constructor
      · intro h p hp
        rcases List.mem_cons.mp hp with rfl | hp
        · exact hts
        · exact h p hp
      · intro h p hp
        exact h p (List.mem_cons_of_mem _ hp)

/-- The pooled error sample consists of absolute values. -/
theorem pooled_diffs_nonneg (s : Synchronizer) (synced : List Row) :
    ∀ d ∈ s.pooled_diffs synced, 0 ≤ d := by
  intro d hd
  unfold Synchronizer.pooled_diffs at hd
  rw [List.mem_flatMap] at hd
  obtain ⟨row, -, hd⟩ := hd
  rw [List.mem_map] at hd
  obtain ⟨p, -, rfl⟩ := hd
  exact absQ_nonneg _

/-- The running minimum of the benchmark selection. -/
theorem benchmark_fold_min (init : String × ℚ × ℚ) :
    ∀ l : List (String × ℚ × ℚ),
      ∃ b, l.foldl (fun best x =>
          if benchmark_score x.2.1 x.2.2 < benchmark_score best.2.1 best.2.2 then x else best)
        init = b ∧
      (b = init ∨ b ∈ l) ∧
      benchmark_score b.2.1 b.2.2 ≤ benchmark_score init.2.1 init.2.2 ∧
      ∀ x ∈ l, benchmark_score b.2.1 b.2.2 ≤ benchmark_score x.2.1 x.2.2
  | [] => ⟨init, rfl, Or.inl rfl, le_refl _, by simp⟩
  | x :: l => by
    simp only [List.foldl_cons]
    by_cases hx : benchmark_score x.2.1 x.2.2 < benchmark_score init.2.1 init.2.2
    · rw [if_pos hx]
      obtain ⟨b, heq, hmem, hle, hall⟩ := benchmark_fold_min x l
      refine ⟨b, heq, ?_, hle.trans hx.le, ?_⟩
      · rcases hmem with rfl | h
        · exact Or.inr (List.mem_cons_self ..)
        · exact Or.inr (List.mem_cons_of_mem _ h)
      · intro y hy
        rcases List.mem_cons.mp hy with rfl | hy
        · exact hle
        · exact hall y hy
    · rw [if_neg hx]
      obtain ⟨b, heq, hmem, hle, hall⟩ := benchmark_fold_min init l
      refine ⟨b, heq, ?_, hle, ?_⟩
      · rcases hmem with rfl | h
        · exact Or.inl rfl
        · exact Or.inr (List.mem_cons_of_mem _ h)
      · intro y hy
        rcases List.mem_cons.mp hy with rfl | hy
        · exact hle.trans (not_lt.mp hx)
        · exact hall y hy

end Sync

namespace Sync

theorem init_indices_fst (s : Synchronizer) :
    s.init_indices.map Prod.fst = s.other_sensors := by
  unfold Synchronizer.init_indices
  have hcomp : (Prod.fst ∘ fun sensor : String => (sensor, (0 : Nat))) = id := rfl
  rw [List.map_map, hcomp, List.map_id]

theorem init_indices_mem (s : Synchronizer) :
    ∀ p ∈ s.init_indices, p.1 ∈ s.other_sensors ∧ p.2 = 0 := by
  intro p hp
  unfold Synchronizer.init_indices at hp
  rw [List.mem_map] at hp
  obtain ⟨sn, hsn, rfl⟩ := hp
  exact ⟨hsn, rfl⟩

theorem mapped_keys (messages : List (String × List ℚ)) :
    (messages.map (fun p => (p.1, sortedQ p.2))).map Prod.fst = messages.map Prod.fst := by
  rw [List.map_map]
  rfl

/-- `_validate_input` on the constructor-sorted dictionary succeeds exactly
when the reference sensor is a key and every original series is non-empty. -/
theorem validate_input_ok_iff (messages : List (String × List ℚ)) (ref : String) (mtd : ℚ) :
    validate_input ⟨messages.map (fun p => (p.1, sortedQ p.2)), ref, mtd⟩ = Except.ok () ↔
      (ref ∈ messages.map Prod.fst ∧ ∀ p ∈ messages, p.2 ≠ []) := by
  unfold validate_input
  dsimp only
  by_cases hemp : messages = []
  · subst hemp
    simp [validate_series]
  · obtain ⟨p0, ms', hm⟩ := List.exists_cons_of_ne_nil hemp
    have hie : (messages.map (fun p => (p.1, sortedQ p.2))).isEmpty = false := by
      rw [hm]
      rfl
    rw [if_neg (by simp [hie])]
    by_cases hlook : ((messages.map (fun p => (p.1, sortedQ p.2))).lookup ref).isNone = true
    · rw [if_pos hlook]
      refine iff_of_false (by intro hc; cases hc) ?_
      rintro ⟨href, -⟩
      have hsome : ((messages.map (fun p => (p.1, sortedQ p.2))).lookup ref).isSome = true := by
        rw [lookup_isSome_iff, mapped_keys]
        exact href
      rw [Option.isNone_iff_eq_none] at hlook
      rw [hlook] at hsome
      cases hsome
    · rw [if_neg hlook]
      have href : ref ∈ messages.map Prod.fst := by
        rw [← mapped_keys, ← lookup_isSome_iff]
        rcases ho : (messages.map (fun p => (p.1, sortedQ p.2))).lookup ref with _ | v
        · rw [ho] at hlook
          exact absurd rfl hlook
        · rw [ho]
          rfl
      rw [validate_series_mapped]
      exact (and_iff_right href).symm

theorem sEx_ref : sEx.reference_sensor = "lidar_0" := rfl

theorem sEx_mtd : sEx.max_time_diff = 2 := rfl

theorem sEx_other : sEx.other_sensors = ["lidar_1", "lidar_2"] := by decide

theorem sEx_reft : sEx.ref_times = [0, 2, 10] := rfl

theorem sEx_s1 : sEx.series "lidar_1" = [0, 2, 10] := rfl

theorem sEx_s2 : sEx.series "lidar_2" = [1, 5, 11] := rfl

theorem beq_l1_l1 : ("lidar_1" == "lidar_1") = true := rfl

theorem beq_l2_l1 : ("lidar_2" == "lidar_1") = false := rfl

theorem beq_l2_l2 : ("lidar_2" == "lidar_2") = true := rfl

theorem sDup_ref : sDup.reference_sensor = "r" := rfl

theorem sDup_mtd : sDup.max_time_diff = 1 := rfl

theorem sDup_other : sDup.other_sensors = ["a"] := by decide

theorem sDup_reft : sDup.ref_times = [1, 1] := rfl

theorem sDup_sA : sDup.series "a" = [1] := rfl

theorem sDup_sR : sDup.series "r" = [1, 1] := rfl

/-- The brute-force run on the concrete example. -/
theorem sEx_brute : sEx.sync_brute_force = [
    [("lidar_0", 0), ("lidar_1", 0), ("lidar_2", 1)],
    [("lidar_0", 2), ("lidar_1", 2), ("lidar_2", 1)],
    [("lidar_0", 10), ("lidar_1", 10), ("lidar_2", 11)]] := by
  norm_num +decide [Synchronizer.sync_brute_force, Synchronizer.start_idx,
    Synchronizer.should_skip_first_timestamp, sEx_other, sEx_reft, sEx_s1, sEx_s2,
    sEx_ref, sEx_mtd, Synchronizer.brute_row,
    Synchronizer.brute_entries, find_closest_brute_force, absQ,
    List.filterMap_cons, List.foldl_cons, List.any_cons]

end Sync

namespace Sync

/-- `_calculate_error_metrics` computes exactly the specified report: the only
non-definitional case is a single pooled value, where the code returns
`avg_diff` while the specification demands `sqrt(mean(diff^2))`; these agree
because pooled values are absolute differences. -/
theorem calculate_error_metrics_eq (s : Synchronizer) (synced : List Row) :
    s.calculate_error_metrics synced = spec_error_metrics s synced := by
  unfold Synchronizer.calculate_error_metrics spec_error_metrics
  by_cases hse : synced.isEmpty
  · rw [if_pos hse]
    have hnil : synced = [] := List.isEmpty_iff.mp hse
    subst hnil
    simp [Synchronizer.pooled_diffs]
  · rw [if_neg hse]
    dsimp only
    by_cases hlen : 1 < (s.pooled_diffs synced).length
    · rw [if_pos hlen]
      have hne : (s.pooled_diffs synced).isEmpty = false := by
        rw [List.isEmpty_eq_false]
        intro hc
        rw [hc] at hlen
        simp at hlen
      rw [ErrorMetrics.mk.injEq]
      refine ⟨by simp [hne], by simp [hne], ?_, by simp [hne]⟩
      rw [if_pos (by omega)]
    · rw [if_neg hlen]
      by_cases hpe : (s.pooled_diffs synced).isEmpty
      · have hnil := List.isEmpty_iff.mp hpe
        rw [ErrorMetrics.mk.injEq]
        refine ⟨by simp [hpe], by simp [hpe], ?_, by simp [hpe]⟩
        rw [if_neg (by rw [hnil]; simp)]
      · have hne' : s.pooled_diffs synced ≠ [] := by
          intro hc
          rw [← List.isEmpty_iff] at hc
          exact hpe hc
        have hlen1 : (s.pooled_diffs synced).length = 1 := by
          have hpos : 0 < (s.pooled_diffs synced).length := List.length_pos.mpr hne'
          omega
        obtain ⟨d, hd⟩ := List.length_eq_one.mp hlen1
        have hd0 : 0 ≤ d := pooled_diffs_nonneg s synced d
          (by rw [hd]; exact List.mem_cons_self ..)
        have hpe' : (s.pooled_diffs synced).isEmpty = false := by
          rw [hd]
          rfl
        rw [ErrorMetrics.mk.injEq]
        refine ⟨by simp [hpe'], by simp [hpe'], ?_, ?_⟩
        · rw [if_neg (by omega)]
        · simp only [hpe', Bool.false_eq_true, if_false]
          rw [hd]
          have h1 : meanQ [d] = d := by
            simp [meanQ]
          have h2 : meanQ ([d].map (fun x => x ^ 2)) = d ^ 2 := by
            simp [meanQ]
          rw [h1, h2]
          rw [show ((d ^ 2 : ℚ) : ℝ) = (d : ℝ) ^ 2 by push_cast; ring]
          rw [Real.sqrt_sq (by exact_mod_cast hd0)]

end Sync

namespace Sync

/-- C1: for each of the four synchronization algorithms, a reference
timestamp produces an output row exactly when, for every non-reference
sensor, the configured finder admits a match within `max_time_diff`; and
every emitted row is total (reference entry plus one entry per other sensor,
in order) with every non-reference entry within `max_time_diff` of the
reference entry — no partial row is ever emitted. -/
theorem claim_c1_admission (s : Synchronizer) :
    (∀ ref_time, (s.brute_row ref_time).isSome = true ↔
      ∀ sensor ∈ s.other_sensors,
        (find_closest_brute_force ref_time (s.series sensor)).2 ≤ s.max_time_diff) ∧
    (∀ ref_time, (s.binary_row ref_time).isSome = true ↔
      ∀ sensor ∈ s.other_sensors,
        absQ (ref_time - find_closest_binary ref_time (s.series sensor)) ≤ s.max_time_diff) ∧
    (∀ ref_time st, ((s.linear_step ref_time st).1.isSome = true ↔
      ∀ p ∈ st, (boundary_closest (s.series p.1)
        (advance_idx (s.series p.1) p.2 ref_time) ref_time).2 ≤ s.max_time_diff)) ∧
    (∀ ref_time,
      ((s.hybrid_row s.calculate_adaptive_window_sizes ref_time).isSome = true ↔
      ∀ sensor ∈ s.other_sensors, ∃ c,
        find_closest_in_window ref_time (s.series sensor)
          (window_of s.calculate_adaptive_window_sizes sensor (s.max_time_diff * 2)) =
            some c ∧
        absQ (ref_time - c) ≤ s.max_time_diff)) ∧
    (∀ row ∈ s.sync_brute_force, s.row_ok row) ∧
    (∀ row ∈ s.sync_linear_scan, s.row_ok row) ∧
    (∀ row ∈ s.sync_binary_search, s.row_ok row) ∧
    (∀ row ∈ s.sync_hybrid, s.row_ok row) := by
  refine ⟨?_, ?_, ?_, ?_, sync_brute_force_row_ok s, sync_linear_scan_row_ok s,
    sync_binary_search_row_ok s, sync_hybrid_row_ok s⟩
  · intro ref_time
    unfold Synchronizer.brute_row
    rw [Option.isSome_map']
    exact brute_entries_isSome s ref_time s.other_sensors
  · intro ref_time
    unfold Synchronizer.binary_row
    rw [Option.isSome_map']
    exact binary_entries_isSome s ref_time s.other_sensors
  · intro ref_time st
    exact linear_step_isSome s ref_time st
  · intro ref_time
    unfold Synchronizer.hybrid_row
    rw [Option.isSome_map']
    exact hybrid_entries_isSome s s.calculate_adaptive_window_sizes ref_time s.other_sensors

/-- Witness for C1: a concrete emitted row of the example run is a total,
admission-respecting row. -/
theorem claim_c1_admission_witness :
    sEx.row_ok [("lidar_0", 0), ("lidar_1", 0), ("lidar_2", 1)] :=
  (claim_c1_admission sEx).2.2.2.2.1 _ (by
    rw [sEx_brute]
    exact List.mem_cons_self ..)

/-- C2 counterexample: for `series = [0, 2]` and reference time `1` the two
candidates are at exactly equal distance, yet both the BinarySearch finder
and the LinearScan boundary comparison return the successor `2`, not the
predecessor `0` the claim demands. -/
theorem claim_c2_counterexample :
    absQ (1 - (0 : ℚ)) = absQ (1 - (2 : ℚ)) ∧
    find_closest_binary 1 [0, 2] = 2 ∧
    boundary_closest [0, 2] (advance_idx [0, 2] 0 1) 1 = (2, 1) ∧
    ¬ (find_closest_binary 1 [0, 2] = 0) := by
  refine ⟨by norm_num [absQ], ?_, ?_, ?_⟩
  · norm_num [find_closest_binary, bisect_left, absQ, List.countP_cons, List.countP_nil]
  · norm_num [boundary_closest, advance_idx, absQ, List.takeWhile_cons]
  · norm_num [find_closest_binary, bisect_left, absQ, List.countP_cons, List.countP_nil]

/-- C2 amended: at an exact interior tie, both the LinearScan boundary
comparison and the BinarySearch finder return the successor `series[idx]`
(the later index wins exact ties, because the code keeps the predecessor only
on a strictly smaller difference). -/
theorem claim_c2_amended (ref_time : ℚ) (ts : List ℚ) (idx : Nat)
    (hidx : idx = bisect_left ts ref_time) (h0 : ¬ idx = 0) (hl : ¬ idx = ts.length)
    (htie : absQ (ref_time - ts.getD (idx - 1) 0) = absQ (ref_time - ts.getD idx 0)) :
    find_closest_binary ref_time ts = ts.getD idx 0 ∧
    boundary_closest ts idx ref_time = (ts.getD idx 0, absQ (ref_time - ts.getD idx 0)) := by
  subst hidx
  constructor
  · unfold find_closest_binary
    rw [if_neg h0, if_neg hl]
    dsimp only
    rw [if_neg (by rw [htie]; exact lt_irrefl _)]
  · unfold boundary_closest
    rw [if_neg h0, if_neg hl]
    dsimp only
    rw [if_neg (by rw [htie]; exact lt_irrefl _)]

/-- Witness for the amended C2 at the concrete tie. -/
theorem claim_c2_amended_witness :
    find_closest_binary 1 [0, 2] = ([0, 2] : List ℚ).getD 1 0 ∧
    boundary_closest [0, 2] 1 1 =
      (([0, 2] : List ℚ).getD 1 0, absQ (1 - ([0, 2] : List ℚ).getD 1 0)) :=
  claim_c2_amended 1 [0, 2] 1
    (by norm_num [bisect_left, List.countP_cons, List.countP_nil])
    (by norm_num) (by norm_num [List.length_cons])
    (by norm_num [absQ, List.getD])

/-- C3: the first reference timestamp is excluded from the pass exactly when
some non-reference sensor has no timestamp within `max_time_diff` of it; all
four algorithms use the same rule, applied only to the first timestamp (when
the rule does not fire the full reference series, first timestamp included,
is processed). -/
theorem claim_c3_skip_rule (s : Synchronizer) :
    (s.should_skip_first_timestamp (s.ref_times.headD 0) = true ↔
      ∃ sensor ∈ s.other_sensors, ∀ ts ∈ s.series sensor,
        ¬ (absQ (s.ref_times.headD 0 - ts) ≤ s.max_time_diff)) ∧
    (s.should_skip_first_timestamp (s.ref_times.headD 0) = false →
      s.sync_brute_force = s.ref_times.filterMap s.brute_row ∧
      s.sync_linear_scan = s.linear_go s.ref_times s.init_indices ∧
      s.sync_binary_search = s.ref_times.filterMap s.binary_row ∧
      s.sync_hybrid =
        s.ref_times.filterMap (s.hybrid_row s.calculate_adaptive_window_sizes)) ∧
    (s.should_skip_first_timestamp (s.ref_times.headD 0) = true →
      s.sync_brute_force = (s.ref_times.drop 1).filterMap s.brute_row ∧
      s.sync_linear_scan = s.linear_go (s.ref_times.drop 1) s.init_indices ∧
      s.sync_binary_search = (s.ref_times.drop 1).filterMap s.binary_row ∧
      s.sync_hybrid =
        (s.ref_times.drop 1).filterMap (s.hybrid_row s.calculate_adaptive_window_sizes)) := by
  refine ⟨should_skip_iff s _, ?_, ?_⟩
  · intro h
    have h0 : s.start_idx = 0 := by
      unfold Synchronizer.start_idx
      rw [h]
      rfl
    refine ⟨?_, ?_, ?_, ?_⟩ <;>
      simp [Synchronizer.sync_brute_force, Synchronizer.sync_linear_scan,
        Synchronizer.sync_binary_search, Synchronizer.sync_hybrid, h0]
  · intro h
    have h1 : s.start_idx = 1 := by
      unfold Synchronizer.start_idx
      rw [h]
      rfl
    refine ⟨?_, ?_, ?_, ?_⟩ <;>
      simp [Synchronizer.sync_brute_force, Synchronizer.sync_linear_scan,
        Synchronizer.sync_binary_search, Synchronizer.sync_hybrid, h1]

/-- Witness for C3: on the example input the rule does not fire and all four
algorithms process the full reference series. -/
theorem claim_c3_skip_rule_witness :
    sEx.sync_brute_force = sEx.ref_times.filterMap sEx.brute_row ∧
    sEx.sync_linear_scan = sEx.linear_go sEx.ref_times sEx.init_indices ∧
    sEx.sync_binary_search = sEx.ref_times.filterMap sEx.binary_row ∧
    sEx.sync_hybrid =
      sEx.ref_times.filterMap (sEx.hybrid_row sEx.calculate_adaptive_window_sizes) :=
  (claim_c3_skip_rule sEx).2.1 (by
    norm_num +decide [Synchronizer.should_skip_first_timestamp, sEx_other, sEx_reft,
      sEx_s1, sEx_s2, sEx_mtd, List.any_cons, absQ])

end Sync

namespace Sync

/-- C4: on a validated input (sorted non-empty series, non-negative
threshold) in which no two timestamps of a sensor are equidistant from any
reference timestamp, the four algorithms produce identical aligned sequences:
the same rows, in the same order, with the same values. -/
theorem claim_c4_algorithms_agree (s : Synchronizer)
    (href : s.ref_times.Sorted (· ≤ ·))
    (hsorted : ∀ sensor ∈ s.other_sensors, (s.series sensor).Sorted (· ≤ ·))
    (hne : ∀ sensor ∈ s.other_sensors, s.series sensor ≠ [])
    (hmtd : 0 ≤ s.max_time_diff)
    (hties : s.no_ties) :
    s.sync_brute_force = s.sync_binary_search ∧
    s.sync_linear_scan = s.sync_binary_search ∧
    s.sync_hybrid = s.sync_binary_search := by
  refine ⟨?_, ?_, ?_⟩
  · unfold Synchronizer.sync_brute_force Synchronizer.sync_binary_search
    apply List.filterMap_congr
    intro t ht
    have ht' : t ∈ s.ref_times := (List.drop_sublist _ _).subset ht
    unfold Synchronizer.brute_row Synchronizer.binary_row
    rw [entries_eq_brute_binary s t s.other_sensors
      (fun sensor hs => ⟨hsorted sensor hs, hne sensor hs, hties t ht' sensor hs⟩)]
  · unfold Synchronizer.sync_linear_scan Synchronizer.sync_binary_search
    apply linear_go_eq_binary s _ s.init_indices
      (List.Pairwise.sublist (List.drop_sublist _ _) href)
    · intro p hp
      exact hsorted p.1 (init_indices_mem s p hp).1
    · intro p hp r hr
      rw [(init_indices_mem s p hp).2]
      exact Nat.zero_le _
    · exact init_indices_fst s
  · unfold Synchronizer.sync_hybrid Synchronizer.sync_binary_search
    apply List.filterMap_congr
    intro t ht
    have ht' : t ∈ s.ref_times := (List.drop_sublist _ _).subset ht
    unfold Synchronizer.hybrid_row Synchronizer.binary_row
    rw [entries_eq_hybrid_binary s t hmtd s.other_sensors
      (fun sensor hs => ⟨hs, hsorted sensor hs, hne sensor hs, hties t ht' sensor hs⟩)]

/-- Witness for C4 on the concrete tie-free example. -/
theorem claim_c4_algorithms_agree_witness :
    sEx.sync_brute_force = sEx.sync_binary_search ∧
    sEx.sync_linear_scan = sEx.sync_binary_search ∧
    sEx.sync_hybrid = sEx.sync_binary_search :=
  claim_c4_algorithms_agree sEx (by decide) (by decide) (by decide) (by decide)
    (by
      norm_num +decide [Synchronizer.no_ties, sEx_reft, sEx_other, sEx_s1, sEx_s2, absQ])

/-- C5 counterexample: a non-ascending input series does not abort the run;
the constructor sorts it and construction succeeds, against the claim that an
`InvalidInput` error is raised. -/
theorem claim_c5_counterexample :
    ¬ ([2, 1] : List ℚ).Sorted (· ≤ ·) ∧
    mkSynchronizer [("lidar_0", [2, 1])] "lidar_0" 1 =
      Except.ok ⟨[("lidar_0", [1, 2])], "lidar_0", 1⟩ := by
  constructor
  · decide
  · rfl

/-- C5 amended: construction (and therefore synchronization, which the
constructor guards) fails exactly when the reference sensor is absent from
the input map or some sensor series is empty; a non-ascending series never
raises, because `__init__` sorts every series before `_validate_input` runs,
so the not-sorted check cannot fire. -/
theorem claim_c5_amended (messages : List (String × List ℚ)) (ref : String) (mtd : ℚ) :
    (∃ s, mkSynchronizer messages ref mtd = Except.ok s) ↔
      (ref ∈ messages.map Prod.fst ∧ ∀ p ∈ messages, p.2 ≠ []) := by
  rw [← validate_input_ok_iff messages ref mtd]
  unfold mkSynchronizer
  dsimp only
  constructor
  · rintro ⟨s', hs'⟩
    rcases hv : validate_input ⟨messages.map (fun p => (p.1, sortedQ p.2)), ref, mtd⟩ with e | u
    · rw [hv] at hs'
      cases hs'
    · rw [hv]
  · intro hv
    rw [hv]
    exact ⟨_, rfl⟩

end Sync

namespace Sync

/-- Extra witness for C5: a concrete present-and-non-empty input constructs
successfully. -/
theorem claim_c5_amended_witness :
    ∃ s, mkSynchronizer [("lidar_0", [1, 2])] "lidar_0" 1 = Except.ok s :=
  (claim_c5_amended [("lidar_0", [1, 2])] "lidar_0" 1).mpr (by
    refine ⟨by decide, ?_⟩
    decide)

/-- C6: the hybrid algorithm searches each non-reference sensor only inside
`[ref_time - w, ref_time + w]` where `w = max(2 * max_time_diff, 2 * mean
inter-sample interval)` for sensors with at least two timestamps and
`2 * max_time_diff` otherwise; an empty window rejects the row exactly like a
failed admission check, with no exception surfaced. -/
theorem claim_c6_hybrid_window (s : Synchronizer) :
    (∀ sensor ∈ s.other_sensors,
      window_of s.calculate_adaptive_window_sizes sensor (s.max_time_diff * 2) =
        if 1 < (s.series sensor).length then
          max (2 * s.max_time_diff)
            (2 * meanQ (((s.series sensor).zip (s.series sensor).tail).map
              (fun p => p.2 - p.1)))
        else 2 * s.max_time_diff) ∧
    (∀ ref_time ts window, ts.Sorted (· ≤ ·) →
      ((find_closest_in_window ref_time ts window = none ↔
        ∀ x ∈ ts, ¬ (absQ (x - ref_time) ≤ window)) ∧
      (∀ c, find_closest_in_window ref_time ts window = some c →
        c ∈ ts ∧ absQ (c - ref_time) ≤ window ∧
        ∀ x ∈ ts, absQ (x - ref_time) ≤ window →
          absQ (c - ref_time) ≤ absQ (x - ref_time)))) ∧
    (∀ ref_time sensor, sensor ∈ s.other_sensors →
      find_closest_in_window ref_time (s.series sensor)
        (window_of s.calculate_adaptive_window_sizes sensor (s.max_time_diff * 2)) = none →
      s.hybrid_row s.calculate_adaptive_window_sizes ref_time = none) := by
  refine ⟨?_, ?_, ?_⟩
  · intro sensor hmem
    rw [window_of_adaptive s sensor hmem]
    unfold Synchronizer.adaptive_window
    by_cases hlen : 1 < (s.series sensor).length
    · rw [if_pos hlen, if_pos hlen]
      have hdne : ((((s.series sensor).zip (s.series sensor).tail).map
          (fun p => p.2 - p.1))).isEmpty = false := by
        rw [List.isEmpty_eq_false]
        intro hc
        have hlc := congrArg List.length hc
        rw [List.length_map, List.length_zip, List.length_tail,
          min_eq_right (Nat.sub_le _ _)] at hlc
        simp only [List.length_nil] at hlc
        omega
      rw [if_neg (by simp [hdne])]
      rw [mul_comm s.max_time_diff 2, mul_comm (meanQ _) 2]
    · rw [if_neg hlen, if_neg hlen, mul_comm]
  · intro ref_time ts window hs
    exact find_closest_in_window_spec ref_time ts window hs
  · intro ref_time sensor hmem hf
    unfold Synchronizer.hybrid_row
    have hnot : ¬ ((s.hybrid_entries s.calculate_adaptive_window_sizes ref_time
        s.other_sensors).isSome = true) := by
      rw [hybrid_entries_isSome]
      intro hall
      obtain ⟨c, hcf, -⟩ := hall sensor hmem
      rw [hf] at hcf
      cases hcf
    cases ho : s.hybrid_entries s.calculate_adaptive_window_sizes ref_time
        s.other_sensors with
    | none => rfl
    | some es =>
      rw [ho] at hnot
      simp at hnot

/-- Witness for C6: the adaptive window of a concrete sensor of the example
(series `[0, 2, 10]`, mean interval `5`) is `max(2*2, 2*5)`. -/
theorem claim_c6_hybrid_window_witness :
    window_of sEx.calculate_adaptive_window_sizes "lidar_1" (sEx.max_time_diff * 2) =
      if 1 < (sEx.series "lidar_1").length then
        max (2 * sEx.max_time_diff)
          (2 * meanQ (((sEx.series "lidar_1").zip (sEx.series "lidar_1").tail).map
            (fun p => p.2 - p.1)))
      else 2 * sEx.max_time_diff :=
  (claim_c6_hybrid_window sEx).1 "lidar_1" (by decide)

/-- C7 counterexample: a valid input (sorted, non-empty series) whose
reference series holds a duplicated timestamp yields an aligned sequence
whose reference column `[1, 1]` is not strictly ascending. -/
theorem claim_c7_counterexample :
    (sDup.ref_times).Sorted (· ≤ ·) ∧
    (∀ sensor ∈ sDup.other_sensors,
      (sDup.series sensor).Sorted (· ≤ ·) ∧ sDup.series sensor ≠ []) ∧
    sDup.ref_column sDup.sync_brute_force = [1, 1] ∧
    ¬ (sDup.ref_column sDup.sync_brute_force).Sorted (· < ·) := by
  have hcol : sDup.ref_column sDup.sync_brute_force = [1, 1] := by
    norm_num +decide [Synchronizer.ref_column, Synchronizer.sync_brute_force,
      Synchronizer.start_idx, Synchronizer.should_skip_first_timestamp,
      sDup_other, sDup_reft, sDup_sA, sDup_sR, sDup_ref, sDup_mtd,
      Synchronizer.brute_row, Synchronizer.brute_entries, find_closest_brute_force,
      absQ, List.filterMap_cons, List.foldl_cons, List.any_cons]
  refine ⟨by decide, by decide, hcol, ?_⟩
  rw [hcol]
  decide

/-- C7 amended: for every input whose reference series is strictly
ascending, the reference column of each of the four aligned sequences is
strictly ascending (with duplicates in the reference series the column is
only non-decreasing, as the counterexample shows). -/
theorem claim_c7_amended (s : Synchronizer) (href : s.ref_times.Sorted (· < ·)) :
    (s.ref_column s.sync_brute_force).Sorted (· < ·) ∧
    (s.ref_column s.sync_linear_scan).Sorted (· < ·) ∧
    (s.ref_column s.sync_binary_search).Sorted (· < ·) ∧
    (s.ref_column s.sync_hybrid).Sorted (· < ·) := by
  have hdrop : (s.ref_times.drop s.start_idx).Sorted (· < ·) :=
    List.Pairwise.sublist (List.drop_sublist _ _) href
  refine ⟨?_, ?_, ?_, ?_⟩
  · exact List.Pairwise.sublist
      (ref_column_filterMap_sublist s _ (brute_row_lookup s) _) hdrop
  · exact List.Pairwise.sublist (ref_column_linear_go_sublist s _ _) hdrop
  · exact List.Pairwise.sublist
      (ref_column_filterMap_sublist s _ (binary_row_lookup s) _) hdrop
  · exact List.Pairwise.sublist
      (ref_column_filterMap_sublist s _ (hybrid_row_lookup s _) _) hdrop

/-- Witness for the amended C7 on the strictly ascending example. -/
theorem claim_c7_amended_witness :
    (sEx.ref_column sEx.sync_brute_force).Sorted (· < ·) ∧
    (sEx.ref_column sEx.sync_linear_scan).Sorted (· < ·) ∧
    (sEx.ref_column sEx.sync_binary_search).Sorted (· < ·) ∧
    (sEx.ref_column sEx.sync_hybrid).Sorted (· < ·) :=
  claim_c7_amended sEx (by decide)

/-- C8: the error-metric computation pools every absolute deviation over all
rows and non-reference sensors, and returns the pooled mean and maximum, the
sample standard deviation for at least two values and `0` otherwise, and an
RMSE equal to `sqrt(mean(diff^2))`; the empty aligned sequence yields the
all-zero report without an error. -/
theorem claim_c8_error_metrics (s : Synchronizer) (synced : List Row) :
    s.calculate_error_metrics synced = spec_error_metrics s synced ∧
    s.calculate_error_metrics [] = ⟨0, 0, 0, 0⟩ :=
  ⟨calculate_error_metrics_eq s synced, by
    simp [Synchronizer.calculate_error_metrics]⟩

/-- C9: the benchmark harness picks an algorithm minimizing the weighted
score `0.6 * mean_abs_error + 0.4 * execution_time` over the entries. -/
theorem claim_c9_benchmark_best (results : List (String × ℚ × ℚ)) (name : String)
    (h : benchmark_best results = some name) :
    ∃ e t, (name, e, t) ∈ results ∧
      ∀ x ∈ results, benchmark_score e t ≤ benchmark_score x.2.1 x.2.2 := by
  cases results with
  | nil => cases h
  | cons r rest =>
    unfold benchmark_best at h
    dsimp only at h
    obtain ⟨b, heq, hmem, hle, hall⟩ := benchmark_fold_min r rest
    rw [heq, Option.some.injEq] at h
    subst h
    refine ⟨b.2.1, b.2.2, ?_, ?_⟩
    · have hb : (b.1, b.2.1, b.2.2) = b := rfl
      rw [hb]
      rcases hmem with rfl | hmem
      · exact List.mem_cons_self ..
      · exact List.mem_cons_of_mem _ hmem
    · intro x hx
      rcases List.mem_cons.mp hx with rfl | hx
      · exact hle
      · exact hall x hx

/-- Witness for C9 on four concrete per-algorithm results: the selected
Binary Search entry has the minimal weighted score. -/
theorem claim_c9_benchmark_best_witness :
    ∃ e t, (("Binary Search" : String), e, t) ∈
      ([("Brute Force", (1 : ℚ), (4 : ℚ)), ("Linear Scan", 1, 2),
        ("Binary Search", 1/2, 1), ("Hybrid", 2, 1)] :
          List (String × ℚ × ℚ)) ∧
      ∀ x ∈ ([("Brute Force", (1 : ℚ), (4 : ℚ)), ("Linear Scan", 1, 2),
        ("Binary Search", 1/2, 1), ("Hybrid", 2, 1)] :
          List (String × ℚ × ℚ)),
        benchmark_score e t ≤ benchmark_score x.2.1 x.2.2 :=
  claim_c9_benchmark_best _ _ (by
    norm_num [benchmark_best, benchmark_score, List.foldl_cons])

end Sync

namespace Sync

/-- C10: on valid input (sorted reference series, sorted non-empty other
series) the leading-outlier skip never changes the output of any of the four
algorithms: when it fires, some sensor has no timestamp within
`max_time_diff` of the first reference timestamp, so that row is rejected by
the admission check anyway, and for LinearScan the cursor state reached by
rejecting that row matches on every later reference timestamp. -/
theorem claim_c10_skip_redundant (s : Synchronizer)
    (href : s.ref_times.Sorted (· ≤ ·))
    (hs : ∀ sensor ∈ s.other_sensors, (s.series sensor).Sorted (· ≤ ·))
    (hne : ∀ sensor ∈ s.other_sensors, s.series sensor ≠ []) :
    s.sync_brute_force = s.sync_brute_force_noskip ∧
    s.sync_linear_scan = s.sync_linear_scan_noskip ∧
    s.sync_binary_search = s.sync_binary_search_noskip ∧
    s.sync_hybrid = s.sync_hybrid_noskip := by
  by_cases hsk : s.should_skip_first_timestamp (s.ref_times.headD 0) = true
  · have h1 : s.start_idx = 1 := by
      unfold Synchronizer.start_idx
      rw [hsk]
      rfl
    cases hrt : s.ref_times with
    | nil =>
      refine ⟨?_, ?_, ?_, ?_⟩ <;>
        simp [Synchronizer.sync_brute_force, Synchronizer.sync_linear_scan,
          Synchronizer.sync_binary_search, Synchronizer.sync_hybrid,
          Synchronizer.sync_brute_force_noskip, Synchronizer.sync_linear_scan_noskip,
          Synchronizer.sync_binary_search_noskip, Synchronizer.sync_hybrid_noskip,
          hrt, Synchronizer.linear_go]
    | cons r0 rest =>
      rw [hrt] at hsk
      simp only [List.headD_cons] at hsk
      have hfar := (should_skip_iff s r0).mp hsk
      rw [hrt] at href
      refine ⟨?_, ?_, ?_, ?_⟩
      · unfold Synchronizer.sync_brute_force Synchronizer.sync_brute_force_noskip
        rw [hrt, h1, List.drop_one, List.tail_cons,
          List.filterMap_cons_none (brute_row_none_of_far s r0 hne hfar)]
      · have hser : ∀ p ∈ s.init_indices, (s.series p.1).Sorted (· ≤ ·) :=
          fun p hp => hs p.1 (init_indices_mem s p hp).1
        have hzero : ∀ p ∈ s.init_indices, ∀ r ∈ (r0 :: rest),
            p.2 ≤ bisect_left (s.series p.1) r := by
          intro p hp r _
          rw [(init_indices_mem s p hp).2]
          exact Nat.zero_le _
        have hA := linear_go_eq_binary s rest s.init_indices href.of_cons hser
          (fun p hp r hr => hzero p hp r (List.mem_cons_of_mem _ hr))
          (init_indices_fst s)
        have hB := linear_go_eq_binary s (r0 :: rest) s.init_indices href hser
          hzero (init_indices_fst s)
        unfold Synchronizer.sync_linear_scan Synchronizer.sync_linear_scan_noskip
        rw [hrt, h1, List.drop_one, List.tail_cons, hA, hB,
          List.filterMap_cons_none (binary_row_none_of_far s r0 hs hne hfar)]
      · unfold Synchronizer.sync_binary_search Synchronizer.sync_binary_search_noskip
        rw [hrt, h1, List.drop_one, List.tail_cons,
          List.filterMap_cons_none (binary_row_none_of_far s r0 hs hne hfar)]
      · unfold Synchronizer.sync_hybrid Synchronizer.sync_hybrid_noskip
        rw [hrt, h1, List.drop_one, List.tail_cons,
          List.filterMap_cons_none (hybrid_row_none_of_far s r0 hs hfar)]
  · have h0 : s.start_idx = 0 := by
      unfold Synchronizer.start_idx
      rw [Bool.not_eq_true] at hsk
      rw [hsk]
      rfl
    refine ⟨?_, ?_, ?_, ?_⟩ <;>
      simp [Synchronizer.sync_brute_force, Synchronizer.sync_linear_scan,
        Synchronizer.sync_binary_search, Synchronizer.sync_hybrid,
        Synchronizer.sync_brute_force_noskip, Synchronizer.sync_linear_scan_noskip,
        Synchronizer.sync_binary_search_noskip, Synchronizer.sync_hybrid_noskip, h0]

/-- Witness for C10: on the example whose first reference timestamp is an
outlier (the skip rule fires), all four outputs agree with the skip disabled. -/
theorem claim_c10_skip_redundant_witness :
    sEx2.sync_brute_force = sEx2.sync_brute_force_noskip ∧
    sEx2.sync_linear_scan = sEx2.sync_linear_scan_noskip ∧
    sEx2.sync_binary_search = sEx2.sync_binary_search_noskip ∧
    sEx2.sync_hybrid = sEx2.sync_hybrid_noskip :=
  claim_c10_skip_redundant sEx2 (by decide) (by decide) (by decide)

end Sync
